import Mathlib

/-!
# xkm-coin: block engine, transaction verifier, unspent-output ledger and pool

A shallow embedding of `crypto/Block.go`, `crypto/BlockChain.go`, `crypto/Transaction.go`,
`crypto/TransactionPool.go`, `crypto/crypto.go` and the ledger functions of `crypto/Server.go`.

Conventions of the embedding:
* Go `int64` and `int` (64-bit) values are `Int`; every addition and subtraction of the source
  goes through `add64` / `sub64`, which wrap modulo 2^64. `uint32` is `Nat` reduced modulo 2^32.
* Go strings are `String`; the bytes of a string are its UTF-8 encoding.
* A function that can stop with a run-time error (index out of range, negative repeat count)
  returns `Option`; `none` is the run-time error.
* The wall clock read by `CurrentUnixTimestamp` is the explicit argument `now`.
* `ecdsa.VerifyASN1` of the Go standard library is the parameter `verifyASN1`; the worked
  examples with signed transactions run on the model `ecdsaVerifyASN1` of it.
* Console output and the broadcast channel do not touch the chain or the pool and are left out.
-/

namespace XkmCoin

/-! ## Machine integers -/

/-- Two's-complement reduction of an integer to the `int64` range. -/
def wrap64 (x : Int) : Int :=
  (x + 9223372036854775808) % 18446744073709551616 - 9223372036854775808

/-- Go `a + b` on `int64`. -/
def add64 (a b : Int) : Int := wrap64 (a + b)

/-- Go `a - b` on `int64`. -/
def sub64 (a b : Int) : Int := wrap64 (a - b)

/-- The `int64` range. -/
def InInt64 (x : Int) : Prop := -9223372036854775808 ≤ x ∧ x ≤ 9223372036854775807

instance (x : Int) : Decidable (InInt64 x) := by unfold InInt64; infer_instance

/-! ## SHA-256 (`crypto/sha256`) and hex (`encoding/hex`) -/
def rotr32 (x n : Nat) : Nat := ((x >>> n) ||| (x <<< (32 - n))) % 4294967296

def sha256K : List Nat :=
  [0x428a2f98, 0x71374491, 0xb5c0fbcf, 0xe9b5dba5, 0x3956c25b, 0x59f111f1, 0x923f82a4, 0xab1c5ed5,
   0xd807aa98, 0x12835b01, 0x243185be, 0x550c7dc3, 0x72be5d74, 0x80deb1fe, 0x9bdc06a7, 0xc19bf174,
   0xe49b69c1, 0xefbe4786, 0x0fc19dc6, 0x240ca1cc, 0x2de92c6f, 0x4a7484aa, 0x5cb0a9dc, 0x76f988da,
   0x983e5152, 0xa831c66d, 0xb00327c8, 0xbf597fc7, 0xc6e00bf3, 0xd5a79147, 0x06ca6351, 0x14292967,
   0x27b70a85, 0x2e1b2138, 0x4d2c6dfc, 0x53380d13, 0x650a7354, 0x766a0abb, 0x81c2c92e, 0x92722c85,
   0xa2bfe8a1, 0xa81a664b, 0xc24b8b70, 0xc76c51a3, 0xd192e819, 0xd6990624, 0xf40e3585, 0x106aa070,
   0x19a4c116, 0x1e376c08, 0x2748774c, 0x34b0bcb5, 0x391c0cb3, 0x4ed8aa4a, 0x5b9cca4f, 0x682e6ff3,
   0x748f82ee, 0x78a5636f, 0x84c87814, 0x8cc70208, 0x90befffa, 0xa4506ceb, 0xbef9a3f7, 0xc67178f2]

def sha256Init : List Nat :=
  [0x6a09e667, 0xbb67ae85, 0x3c6ef372, 0xa54ff53a, 0x510e527f, 0x9b05688c, 0x1f83d9ab, 0x5be0cd19]

/-- Big-endian bytes of `x`, `n` of them. -/
def beBytes : Nat → Nat → List Nat
  | 0, _ => []
  | n + 1, x => (x >>> (8 * n)) % 256 :: beBytes n x

/-- Message padding: a 0x80 byte, zeros up to 56 mod 64, the bit length on 8 bytes. -/
def sha256Pad (msg : List Nat) : List Nat :=
  msg ++ [128] ++ List.replicate ((119 - msg.length % 64) % 64) 0 ++ beBytes 8 (8 * msg.length)

/-- Big-endian 32-bit words of a byte list (four bytes each). -/
def beWords : List Nat → List Nat
  | a :: b :: c :: d :: rest => (((a * 256 + b) * 256 + c) * 256 + d) :: beWords rest
  | _ => []

def ssig0 (x : Nat) : Nat := rotr32 x 7 ^^^ rotr32 x 18 ^^^ (x >>> 3)
def ssig1 (x : Nat) : Nat := rotr32 x 17 ^^^ rotr32 x 19 ^^^ (x >>> 10)
def bsig0 (x : Nat) : Nat := rotr32 x 2 ^^^ rotr32 x 13 ^^^ rotr32 x 22
def bsig1 (x : Nat) : Nat := rotr32 x 6 ^^^ rotr32 x 11 ^^^ rotr32 x 25

/-- Extends the message schedule; `rev` holds the words so far, newest first. -/
def sha256Schedule : Nat → List Nat → List Nat
  | 0, rev => rev.reverse
  | n + 1, rev =>
    let w := (ssig1 (rev.getD 1 0) + rev.getD 6 0 + ssig0 (rev.getD 14 0) + rev.getD 15 0) % 4294967296
    sha256Schedule n (w :: rev)

def sha256Round (s : List Nat) (kw : Nat × Nat) : List Nat :=
  match s with
  | [a, b, c, d, e, f, g, h] =>
    let ch := (e &&& f) ^^^ ((4294967295 - e) &&& g)
    let maj := (a &&& b) ^^^ (a &&& c) ^^^ (b &&& c)
    let t1 := h + bsig1 e + ch + kw.1 + kw.2
    let t2 := bsig0 a + maj
    [(t1 + t2) % 4294967296, a, b, c, (d + t1) % 4294967296, e, f, g]
  | _ => s

def sha256Block (h : List Nat) (block : List Nat) : List Nat :=
  let w := sha256Schedule 48 (beWords block).reverse
  let s := (sha256K.zip w).foldl sha256Round h
  List.zipWith (fun x y => (x + y) % 4294967296) h s

/-- Splits into 64-byte blocks; `n` bounds the number of blocks. -/
def blocks64 : Nat → List Nat → List (List Nat)
  | 0, _ => []
  | n + 1, l => if l.length < 64 then [] else l.take 64 :: blocks64 n (l.drop 64)

def sha256 (msg : List Nat) : List Nat :=
  let p := sha256Pad msg
  ((blocks64 (p.length / 64) p).foldl sha256Block sha256Init).flatMap (beBytes 4)

def hexDigits : List Char := "0123456789abcdef".toList

def hexEncode (bs : List Nat) : String :=
  String.mk (bs.flatMap fun b => [hexDigits.getD (b / 16) '0', hexDigits.getD (b % 16) '0'])

def utf8Char (c : Char) : List Nat :=
  let n := c.toNat
  if n < 128 then [n]
  else if n < 2048 then [192 + n / 64, 128 + n % 64]
  else if n < 65536 then [224 + n / 4096, 128 + n / 64 % 64, 128 + n % 64]
  else [240 + n / 262144, 128 + n / 4096 % 64, 128 + n / 64 % 64, 128 + n % 64]

def bytesOf (s : String) : List Nat := s.toList.flatMap utf8Char

def HashString (str : String) : String := hexEncode (sha256 (bytesOf str))

/-- Value of one hex digit, upper or lower case (`encoding/hex`). -/
def fromHexChar (c : Char) : Option Nat :=
  if 48 ≤ c.toNat ∧ c.toNat ≤ 57 then some (c.toNat - 48)
  else if 97 ≤ c.toNat ∧ c.toNat ≤ 102 then some (c.toNat - 87)
  else if 65 ≤ c.toNat ∧ c.toNat ≤ 70 then some (c.toNat - 55)
  else none

/-- The decoding loop of `hex.Decode`: the bytes decoded before the first error, and whether the
whole input was decoded (`false` on an invalid digit or an odd length). -/
def hexDecodeList : List Char → List Nat × Bool
  | [] => ([], true)
  | [_] => ([], false)
  | p :: q :: rest =>
    match fromHexChar p, fromHexChar q with
    | some a, some b => ((a * 16 + b) :: (hexDecodeList rest).1, (hexDecodeList rest).2)
    | _, _ => ([], false)

/-- Go `hex.DecodeString`: the decoded bytes (those before the error, if any) and `err == nil`. -/
def DecodeString (s : String) : List Nat × Bool := hexDecodeList s.toList

/-! ## Data model -/

/-- Go `crypto.TxIn`. -/
structure TxIn where
  TxOutId : String
  TxOutIndex : Int
  Signature : String
deriving DecidableEq

/-- Go `crypto.TxOut`. -/
structure TxOut where
  Address : String
  Amount : Int
deriving DecidableEq

/-- Go `crypto.Transaction`. -/
structure Transaction where
  Id : String
  TxIns : List TxIn
  TxOuts : List TxOut
deriving DecidableEq

/-- Go `crypto.UnspentTxOut`. -/
structure UnspentTxOut where
  TxOutId : String
  TxOutIndex : Int
  Address : String
  Amount : Int
deriving DecidableEq

/-- Go `crypto.Block`. -/
structure Block where
  Index : Int
  Hash : String
  PreviousHash : String
  Timestamp : Int
  Data : List Transaction
  Difficulty : Int
  Nonce : Nat
deriving DecidableEq

def BlockGenerationInterval : Int := 10

def DifficultyAdjustmentInterval : Nat := 10

def CoinBaseAmount : Int := 100

def NewBlock (index : Int) (hash previousHash : String) (timestamp : Int)
    (data : List Transaction) (difficulty : Int) (nonce : Nat) : Block :=
  { Index := index, Hash := hash, PreviousHash := previousHash, Timestamp := timestamp,
    Data := data, Difficulty := difficulty, Nonce := nonce }

/-! ## Block.go -/

/-- Go `%v` of a slice: the elements separated by one space, in square brackets. -/
def renderSlice (xs : List String) : String := "[" ++ " ".intercalate xs ++ "]"

def renderTxIn (i : TxIn) : String :=
  "\x7b" ++ i.TxOutId ++ " " ++ toString i.TxOutIndex ++ " " ++ i.Signature ++ "\x7d"

def renderTxOut (o : TxOut) : String :=
  "\x7b" ++ o.Address ++ " " ++ toString o.Amount ++ "\x7d"

/-- Go `%v` of a `Transaction`: the three fields separated by one space, in braces. -/
def renderTransaction (t : Transaction) : String :=
  "\x7b" ++ t.Id ++ " " ++ renderSlice (t.TxIns.map renderTxIn) ++ " "
    ++ renderSlice (t.TxOuts.map renderTxOut) ++ "\x7d"

def CalculateHash (index : Int) (previousHash : String) (timestamp : Int)
    (data : List Transaction) (difficulty : Int) (nonce : Nat) : String :=
  HashString (toString index ++ previousHash ++ toString timestamp
    ++ renderSlice (data.map renderTransaction) ++ toString difficulty ++ toString nonce)

def CalculateHashForBlock (block : Block) : String :=
  CalculateHash block.Index block.PreviousHash block.Timestamp block.Data block.Difficulty
    block.Nonce

/-- Go `fmt.Sprintf("%08b", b)`: the binary digits of `b`, zero-padded on the left to width 8. -/
def fmtB08 (b : Nat) : List Char :=
  List.replicate (8 - (Nat.toDigits 2 b).length) '0' ++ Nat.toDigits 2 b

/-- The decoding error is dropped: the bytes decoded before it are rendered. -/
def HexToBinary (h : String) : String :=
  String.mk ((DecodeString h).1.flatMap fmtB08)

/-- Go `strings.Repeat`; a negative count is a run-time error. -/
def Repeat (s : String) (count : Int) : Option String :=
  if count < 0 then none else some (String.join (List.replicate count.toNat s))

/-- Go `strings.HasPrefix`. -/
def HasPrefix (s pre : String) : Bool := pre.toList.isPrefixOf s.toList

def HashMatchesDifficulty (hash : String) (difficulty : Int) : Option Bool :=
  let hashInBinary := HexToBinary hash
  match Repeat "0" difficulty with
  | none => none
  | some pre => some (HasPrefix hashInBinary pre)

def HasMatchesBlockContent (block : Block) : Bool :=
  decide (block.Hash = CalculateHashForBlock block)

def HasValidHash (block : Block) : Option Bool :=
  if !HasMatchesBlockContent block then some false
  else
    match HashMatchesDifficulty block.Hash block.Difficulty with
    | none => none
    | some false => some false
    | some true => some true

def isValidTimestamp (now : Int) (newBlock previousBlock : Block) : Bool :=
  decide (sub64 previousBlock.Timestamp 60 < newBlock.Timestamp)
    && decide (sub64 newBlock.Timestamp 60 < now)

def isValidBlock (now : Int) (newBlock previousBlock : Block) : Option Bool :=
  if add64 previousBlock.Index 1 ≠ newBlock.Index then some false
  else if previousBlock.Hash ≠ newBlock.PreviousHash then some false
  else if CalculateHashForBlock newBlock ≠ newBlock.Hash then some false
  else if !isValidTimestamp now newBlock previousBlock then some false
  else
    match HasValidHash newBlock with
    | none => none
    | some false => some false
    | some true => some true

/-- The retargeting rule; `chain[len(chain)-10]` is a run-time error on fewer than 10 blocks. -/
def getAdjustedDifficulty (latest : Block) (chain : List Block) : Option Int :=
  if chain.length < DifficultyAdjustmentInterval then none
  else
    match chain.get? (chain.length - DifficultyAdjustmentInterval) with
    | none => none
    | some previousAdjustmentBlock =>
      let timeExpected : Int := BlockGenerationInterval * DifficultyAdjustmentInterval
      let timeTaken := sub64 latest.Timestamp previousAdjustmentBlock.Timestamp
      if timeTaken < Int.tdiv timeExpected 2 then
        some (add64 previousAdjustmentBlock.Difficulty 1)
      else if timeTaken > timeExpected * 2 then
        if previousAdjustmentBlock.Difficulty > 0 then
          some (sub64 previousAdjustmentBlock.Difficulty 1)
        else some 0
      else some previousAdjustmentBlock.Difficulty

/-- The difficulty of the next block; `chain[len(chain)-1]` is a run-time error on an empty chain. -/
def GetDifficulty (chain : List Block) : Option Int :=
  match chain.getLast? with
  | none => none
  | some latest =>
    if Int.tmod latest.Index DifficultyAdjustmentInterval = 0 ∧ latest.Index ≠ 0 then
      getAdjustedDifficulty latest chain
    else some latest.Difficulty

/-- The mining loop. The `uint32` nonce wraps after 2^32 increments and the hash depends only on
the arguments, so the loop of the source returns within its first 2^32 iterations or never:
`fuel` counts the iterations left, and `none` is a run that does not return a block. -/
def FindBlockLoop (index : Int) (previousHash : String) (timestamp : Int)
    (data : List Transaction) (difficulty : Int) : Nat → Nat → Option Block
  | 0, _ => none
  | fuel + 1, nonce =>
    let hash := CalculateHash index previousHash timestamp data difficulty nonce
    match HashMatchesDifficulty hash difficulty with
    | none => none
    | some true => some (NewBlock index hash previousHash timestamp data difficulty nonce)
    | some false =>
      FindBlockLoop index previousHash timestamp data difficulty fuel ((nonce + 1) % 4294967296)

def FindBlock (index : Int) (previousHash : String) (timestamp : Int)
    (data : List Transaction) (difficulty : Int) : Option Block :=
  FindBlockLoop index previousHash timestamp data difficulty 4294967296 0

/-! ## crypto.go -/

/-- The field prime of P-256 (`elliptic.P256().Params().P`). -/
def p256P : Nat := 0xffffffff00000001000000000000000000000000ffffffffffffffffffffffff

/-- The constant `b` of P-256 (`elliptic.P256().Params().B`). -/
def p256B : Nat := 0x5ac635d8aa3a93e7b3ebbd55769886bc651d06b0cc53b0f63bce3c3e27d2604b

/-- Square-and-multiply; `fuel` bounds the number of bits of the exponent. -/
def powModAux (m : Nat) : Nat → Nat → Nat → Nat → Nat
  | 0, _, _, acc => acc
  | fuel + 1, b, e, acc =>
    if e = 0 then acc
    else powModAux m fuel (b * b % m) (e / 2) (if e % 2 = 1 then acc * b % m else acc)

/-- Modular exponentiation `b ^ e mod m`, as `big.Int.Exp` with a modulus; the exponent itself
bounds the number of its bits. -/
def powMod (b e m : Nat) : Nat := powModAux m e (b % m) e (1 % m)

/-- Go `big.Int.ModSqrt` on a prime modulus `p` with `p % 4 = 3`, for `0 ≤ x < p`: no root when
`x` is a non-residue (Jacobi symbol -1, by Euler's criterion), `0` when `x` is `0`, and
otherwise `x ^ ((p + 1) / 4) mod p`. -/
def ModSqrt (x p : Nat) : Option Nat :=
  if x % p = 0 then some 0
  else if powMod x ((p - 1) / 2) p = 1 then some (powMod x ((p + 1) / 4) p)
  else none

/-- Big-endian value of a byte string (`big.Int.SetBytes`). -/
def SetBytes (bs : List Nat) : Nat := bs.foldl (fun acc b => acc * 256 + b) 0

def DeriveYFromCompressed (compressedAddress : String) : Except String (Nat × Nat) :=
  let decoded := DecodeString compressedAddress
  if !decoded.2 then Except.error "encoding/hex: invalid input"
  else
    let compressedBytes := decoded.1
    if compressedBytes.length ≠ 33 then Except.error "invalid address length"
    else
      let signByte := compressedBytes.headD 0
      if signByte ≠ 2 ∧ signByte ≠ 3 then Except.error "invalid sign byte"
      else
        let x := SetBytes compressedBytes.tail
        let xCubed := x ^ 3 % p256P
        let threeX := x * 3 % p256P
        let ySquared : Int := ((xCubed : Int) - (threeX : Int) + (p256B : Int)) % (p256P : Int)
        match ModSqrt ySquared.toNat p256P with
        | none => Except.error "invalid point"
        | some y =>
          if y % 2 ≠ signByte % 2 then Except.ok (x, (p256P - y) % p256P)
          else Except.ok (x, y)

/-- The public key `(X, Y)`; the curve is always P-256. -/
def GetPublicECDSAKeyFromCompressedAddress (compressedAddress : String) :
    Except String (Nat × Nat) :=
  match DeriveYFromCompressed compressedAddress with
  | Except.error e => Except.error e
  | Except.ok xy => Except.ok xy

/-- Type of `ecdsa.VerifyASN1` at a P-256 key: public key, digest bytes, signature bytes. -/
abbrev VerifyASN1 : Type := Nat × Nat → List Nat → List Nat → Bool

def VerifyECDSASignature (verifyASN1 : VerifyASN1) (publicKey : Nat × Nat)
    (hashed signature : String) : Except String Bool :=
  let hashBytes := DecodeString hashed
  if !hashBytes.2 then Except.error "encoding/hex: invalid input"
  else
    let signatureBytes := DecodeString signature
    if !signatureBytes.2 then Except.error "encoding/hex: invalid input"
    else Except.ok (verifyASN1 publicKey hashBytes.1 signatureBytes.1)

/-! ## Transaction.go -/

def GetTransactionId (transaction : Transaction) : String :=
  let inBuilder := transaction.TxIns.foldl
    (fun b txIn => b ++ (txIn.TxOutId ++ toString txIn.TxOutIndex)) ""
  let outBuilder := transaction.TxOuts.foldl
    (fun b txOut => b ++ (txOut.Address ++ toString txOut.Amount)) ""
  let combined := inBuilder ++ outBuilder
  HashString combined

/-- The first entry with the input's `(TxOutId, TxOutIndex)`; `none` is the nil pointer. -/
def FindReferencedTxOut (txIn : TxIn) (unspentTxOuts : List UnspentTxOut) :
    Option UnspentTxOut :=
  unspentTxOuts.find? fun u => decide (u.TxOutId = txIn.TxOutId ∧ u.TxOutIndex = txIn.TxOutIndex)

def ValidateTxIn (verifyASN1 : VerifyASN1) (txIn : TxIn) (transaction : Transaction)
    (unspentTxOuts : List UnspentTxOut) : Bool :=
  match FindReferencedTxOut txIn unspentTxOuts with
  | none => false
  | some referencedTxOut =>
    let address := referencedTxOut.Address
    match GetPublicECDSAKeyFromCompressedAddress address with
    | Except.error _ => false
    | Except.ok publicKey =>
      match VerifyECDSASignature verifyASN1 publicKey transaction.Id txIn.Signature with
      | Except.error _ => false
      | Except.ok validated => validated

/-- The `int64` accumulation `totalTxInValues += txOut.Amount` over the inputs that resolve. -/
def totalTxInValues (txIns : List TxIn) (unspentTxOuts : List UnspentTxOut) : Int :=
  txIns.foldl
    (fun total txIn =>
      match FindReferencedTxOut txIn unspentTxOuts with
      | some txOut => add64 total txOut.Amount
      | none => total) 0

/-- The `int64` accumulation `totalTxOutValues += transaction.TxOuts[i].Amount`. -/
def totalTxOutValues (txOuts : List TxOut) : Int :=
  txOuts.foldl (fun total txOut => add64 total txOut.Amount) 0

def ValidateTransaction (verifyASN1 : VerifyASN1) (transaction : Transaction)
    (unspentTxOuts : List UnspentTxOut) : Bool :=
  if GetTransactionId transaction ≠ transaction.Id then false
  else if !(transaction.TxIns.all fun txIn =>
      ValidateTxIn verifyASN1 txIn transaction unspentTxOuts) then false
  else if totalTxInValues transaction.TxIns unspentTxOuts
      ≠ totalTxOutValues transaction.TxOuts then false
  else true

/-- The map of the source holds the keys seen so far; `seen` is that key set. -/
def HasDuplicatesFrom : List TxIn → List String → Bool
  | [], _ => false
  | txIn :: rest, seen =>
    let combined := txIn.TxOutId ++ toString txIn.TxOutIndex
    if combined ∈ seen then true else HasDuplicatesFrom rest (combined :: seen)

def HasDuplicates (txIns : List TxIn) : Bool := HasDuplicatesFrom txIns []

/-- The pointer passed is never nil; `transaction.TxOuts[0]` is a run-time error when the
transaction has no output. -/
def ValidateCoinBaseTx (transaction : Transaction) (blockIndex : Int) : Option Bool :=
  if GetTransactionId transaction ≠ transaction.Id then some false
  else if transaction.TxIns.length ≠ 1 then some false
  else
    match transaction.TxIns.head? with
    | none => none
    | some txIn0 =>
      if txIn0.TxOutIndex ≠ blockIndex then some false
      else
        match transaction.TxOuts.head? with
        | none => none
        | some txOut0 => if txOut0.Amount ≠ CoinBaseAmount then some false else some true

/-- Validation of a block's transactions; `transactions[0]` is a run-time error on an empty
list. -/
def ValidateBlockTransactions (verifyASN1 : VerifyASN1) (transactions : List Transaction)
    (unspentTxOuts : List UnspentTxOut) (blockIndex : Int) : Option Bool :=
  match transactions with
  | [] => none
  | coinBaseTx :: normalTransactions =>
    match ValidateCoinBaseTx coinBaseTx blockIndex with
    | none => none
    | some false => some false
    | some true =>
      let txIns := transactions.flatMap fun tx => tx.TxIns
      if HasDuplicates txIns then some false
      else if normalTransactions.all fun tx => ValidateTransaction verifyASN1 tx unspentTxOuts
      then some true
      else some false

/-- Result `some true` is `(true, nil)`, `some false` is `(false, err)` with a non-nil error. -/
def ProcessTransactions (verifyASN1 : VerifyASN1) (transactions : List Transaction)
    (unspentTxOuts : List UnspentTxOut) (blockIndex : Int) : Option Bool :=
  match ValidateBlockTransactions verifyASN1 transactions unspentTxOuts blockIndex with
  | none => none
  | some false => some false
  | some true => some true

/-! ## Server.go: the unspent-output ledger -/

def HasTxOutId (txOutID : String) (txOuts : List UnspentTxOut) : Int :=
  match txOuts.findIdx? fun txOut => decide (txOut.TxOutId = txOutID) with
  | some index => index
  | none => -1

def HasTxOutIdWithAddress (txOutID address : String) (txOuts : List UnspentTxOut) : Int :=
  match txOuts.findIdx? fun txOut =>
      decide (txOut.TxOutId = txOutID ∧ txOut.Address = address) with
  | some index => index
  | none => -1

def RemoveElementFromSlice (slice : List UnspentTxOut) (index : Int) : List UnspentTxOut :=
  slice.take index.toNat ++ slice.drop (index.toNat + 1)

/-- Body of the innermost loop of `GetAllUnspentTxOuts`; `transaction.TxIns[0]` is a run-time
error when the transaction has no input. -/
def unspentStep (transaction : Transaction) (unspentTxOuts : List UnspentTxOut)
    (txOut : TxOut) : Option (List UnspentTxOut) :=
  match transaction.TxIns.head? with
  | none => none
  | some txIn =>
    let index := HasTxOutIdWithAddress txIn.TxOutId txOut.Address unspentTxOuts
    let kept := if index ≠ -1 then RemoveElementFromSlice unspentTxOuts index else unspentTxOuts
    some (kept ++ [{ TxOutId := transaction.Id, TxOutIndex := txIn.TxOutIndex,
                     Address := txOut.Address, Amount := txOut.Amount }])

/-- The ledger derived from a chain (the source reads the global `BlockChain`). -/
def GetAllUnspentTxOuts (blockChain : List Block) : Option (List UnspentTxOut) :=
  blockChain.foldlM
    (fun acc block =>
      block.Data.foldlM
        (fun acc1 transaction => transaction.TxOuts.foldlM (unspentStep transaction) acc1) acc)
    []

def GetBalanceOfUnspentTxOuts (txOuts : List UnspentTxOut) : Int :=
  txOuts.foldl (fun balance txOut => add64 balance txOut.Amount) 0

/-- Body of the innermost loop of `GetUnspentTxOutsOfAddress`. -/
def unspentOfAddressStep (address : String) (transaction : Transaction)
    (unspentTxOuts : List UnspentTxOut) (txOut : TxOut) : Option (List UnspentTxOut) :=
  if txOut.Address = address then
    match transaction.TxIns.head? with
    | none => none
    | some txIn =>
      let index := HasTxOutId txIn.TxOutId unspentTxOuts
      let kept := if index ≠ -1 then RemoveElementFromSlice unspentTxOuts index else unspentTxOuts
      some (kept ++ [{ TxOutId := transaction.Id, TxOutIndex := txIn.TxOutIndex,
                       Address := txOut.Address, Amount := txOut.Amount }])
  else some unspentTxOuts

def GetUnspentTxOutsOfAddress (blockChain : List Block) (address : String) :
    Option (List UnspentTxOut) :=
  blockChain.foldlM
    (fun acc block =>
      block.Data.foldlM
        (fun acc1 transaction =>
          transaction.TxOuts.foldlM (unspentOfAddressStep address transaction) acc1) acc)
    []

/-! ## TransactionPool.go -/

def HasTxIn (transaction : Transaction) (unspentTxOuts : List UnspentTxOut) : Bool :=
  unspentTxOuts.any fun txOut => decide (txOut.TxOutId = transaction.Id)

def GetTxPoolIns (pool : List Transaction) : List TxIn :=
  pool.flatMap fun transaction => transaction.TxIns

def ContainsTxIn (txPoolIns : List TxIn) (txIn : TxIn) : Bool :=
  txPoolIns.any fun txPoolIn =>
    decide (txPoolIn.TxOutIndex = txIn.TxOutIndex ∧ txPoolIn.TxOutId = txIn.TxOutId)

def IsValidTxForPool (transaction : Transaction) (pool : List Transaction) : Bool :=
  let txPoolIns := GetTxPoolIns pool
  transaction.TxIns.all fun txIn => !ContainsTxIn txPoolIns txIn

/-- The engine state: the globals `BlockChain` and `TransactionPool`. -/
structure State where
  BlockChain : List Block
  TransactionPool : List Transaction
deriving DecidableEq

def GetTransactionById (s : State) (id : String) : Bool × Option Transaction :=
  match s.TransactionPool.find? fun tx => decide (tx.Id = id) with
  | some tx => (true, some tx)
  | none => (false, none)

/-- Returns `true` for a nil error, with the pool after the call. -/
def AddToTransactionPool (verifyASN1 : VerifyASN1) (s : State) (transaction : Transaction)
    (unspentTxOuts : List UnspentTxOut) : Bool × State :=
  if ValidateTransaction verifyASN1 transaction unspentTxOuts ≠ true then (false, s)
  else if !IsValidTxForPool transaction s.TransactionPool then (false, s)
  else (true, { s with TransactionPool := s.TransactionPool ++ [transaction] })

/-- The pool after the prune; `none` when `GetAllUnspentTxOuts` stops with a run-time error,
which leaves the state as it was. -/
def UpdateTransactionPool (s : State) : Option State :=
  match GetAllUnspentTxOuts s.BlockChain with
  | none => none
  | some unspentTxOuts =>
    some { s with
      TransactionPool := s.TransactionPool.filter fun tx => !HasTxIn tx unspentTxOuts }

/-! ## BlockChain.go -/

def GenesisTransaction : Transaction :=
  { Id := "66ff05e7c66386297634cae4bd324e93be1b2ede6d4599e1de82361b42dc1807",
    TxIns := [{ TxOutId := "", TxOutIndex := 0, Signature := "" }],
    TxOuts := [{ Address := "02fbe9019062728e8fab7ac59b33d25c24ce9d393b49134f7a25da45a50f43faf9",
                 Amount := 100 }] }

def GenesisBlock : Block :=
  NewBlock 0 "46454b6c6f285e0d00437258b5a6543a0fcfadf278eb7e2b5cce151a383374a0" "" 1
    [GenesisTransaction] 0 0

/-- The state at start-up: the chain `[GenesisBlock]` and an empty pool. -/
def initialState : State := { BlockChain := [GenesisBlock], TransactionPool := [] }

def GetLatestBlock (s : State) : Option Block := s.BlockChain.getLast?

/-- One call of `AddBlockToChain` at clock value `now`: the returned boolean (`none` when the
call stops with a run-time error) and the state the call leaves behind. -/
def AddBlockToChain (verifyASN1 : VerifyASN1) (now : Int) (s : State) (block : Block) :
    Option Bool × State :=
  match GetLatestBlock s with
  | none => (none, s)
  | some latest =>
    match isValidBlock now block latest with
    | none => (none, s)
    | some false => (some false, s)
    | some true =>
      match GetAllUnspentTxOuts s.BlockChain with
      | none => (none, s)
      | some allUnspentTxOuts =>
        match ProcessTransactions verifyASN1 block.Data allUnspentTxOuts block.Index with
        | none => (none, s)
        | some false => (some false, s)
        | some true =>
          let appended : State := { s with BlockChain := s.BlockChain ++ [block] }
          match UpdateTransactionPool appended with
          | none => (none, appended)
          | some pruned => (some true, pruned)

/-- The state after a sequence of `AddBlockToChain` calls, each with its own clock value. -/
def runAddBlocks (verifyASN1 : VerifyASN1) (s : State) : List (Int × Block) → State
  | [] => s
  | (now, block) :: rest =>
    runAddBlocks verifyASN1 (AddBlockToChain verifyASN1 now s block).2 rest

/-! ## A mined chain: concrete input for the worked examples

Ten blocks mined on the genesis block, one per second from clock value 1700000001, each holding
one coinbase transaction that pays `sampleMiner`; difficulty 0, so nonce 0 is the first match. -/

def sampleMiner : String := "02fbe9019062728e8fab7ac59b33d25c24ce9d393b49134f7a25da45a50f43faf9"

/-- The pairs (coinbase transaction id, block hash) of the blocks at heights 1 to 10. -/
def sampleHashes : List (String × String) :=
  [("36309bbef2089db73dafc6b443f9de431bcce015b1181aef3cdcccbb6cff5572",
    "4376685657efce79f937d96f364eb8dd2483278ac2d2063bf605db737a77d9f2"),
   ("ea4312691148ae0d9b8681490c1130723baf078e155b8b2e07889f07f4397220",
    "13d53a25076e97d43690fdd64262ec4954144357fb43514ee26fbf0cf391201f"),
   ("eaf4c255ea5f7898b80b8f904e8cf7a424a8b4cb5d8344192338d47c009f38ab",
    "3b9ece8371e6165e5e6688c02c412b22e56e96b3089734ccbbe50e28932c8ee4"),
   ("69a8841ef271a075a59d8cbca04f3dbf2cfe8942d4a8136341948736a1e078c0",
    "21fdae60a9d6de017f38ce9dbea3134de382bd6e97d0dcc56bce846ae1b93072"),
   ("e11743451ecb7a1e8228b421ac8dacac9936094db3b31a28d30867d9a3e00cbf",
    "f1066ebc4d485bb01311c834cb09833916f4e331e3cdb4c2646aacd79d9f5f84"),
   ("8ae213b86d3b286a7397f724e5488c7d6b9bf3692dd25f0ca6345db69a839a7c",
    "efa82a21c55f70c36af32473745feab7a862c78352a0aca1591ac97a25204494"),
   ("cdc80f4b8b4b16351bfcd726d05b13789211cb721ac33bd7d4a16b8caecd61ef",
    "27d785ff1454c0dc028c3d5ba91fea01b94a18b975ecd805cac94c709d9ff124"),
   ("5dee89024b81c75afe539ba2e5f533a8d50bcb08f69310e51dcc0747c4ebdd7c",
    "ecf9e728baff5b9ac64497b0f220a6105adaec7c5bd4e4d5202a2c09150c078f"),
   ("d4a3aae868265901452750c1c8e1bd477289b5c119a34ac136fb97f37c6bb6e3",
    "8de1306964edcaaa705cc86ad034d8b4fcc1b1f83f0658edd10420be8226a8d0"),
   ("4b28332edb2993f4f88d70c454e3adc2346a43a90066c0eed4a1345d327a16c7",
    "d698ca84919299e56c285e67cb4f4743f45df872b74de3b1b097e48cf41a3079")]

/-- The mined blocks at heights `k`, `k + 1`, ... on a block of hash `previousHash`. -/
def sampleBlocksFrom : Nat → String → List (String × String) → List Block
  | _, _, [] => []
  | k, previousHash, (txId, hash) :: rest =>
    NewBlock k hash previousHash (1700000000 + k)
      [{ Id := txId,
         TxIns := [{ TxOutId := "", TxOutIndex := k, Signature := "" }],
         TxOuts := [{ Address := sampleMiner, Amount := 100 }] }] 0 0
      :: sampleBlocksFrom (k + 1) hash rest

def sampleBlocks : List Block := sampleBlocksFrom 1 GenesisBlock.Hash sampleHashes

/-- The calls that append the sample blocks, each at the clock value of its own timestamp. -/
def sampleCalls : List (Int × Block) := sampleBlocks.map fun b => (b.Timestamp, b)

/-- A signature check that accepts nothing; the sample chain holds no signed input. -/
def rejectAll : VerifyASN1 := fun _ _ _ => false

/-- The sample chain: the genesis block and the ten mined blocks, at heights 0 to 10. -/
def sampleChain : List Block := GenesisBlock :: sampleBlocks

/-- Ten blocks of difficulty -1; the tip has index 10 and is 100 s younger than the first. -/
def negativeDifficultyChain : List Block :=
  List.replicate 9 (NewBlock 0 "" "" 0 [] (-1) 0) ++ [NewBlock 10 "" "" 100 [] (-1) 0]

/-- Value of a string of binary digits, most significant digit first. -/
def binaryValue (bits : List Char) : Nat :=
  bits.foldl (fun acc c => 2 * acc + (if c = '1' then 1 else 0)) 0

/-- A block that is valid on the genesis block but whose coinbase transaction pays 50, not 100. -/
def underpaidBlock : Block :=
  NewBlock 1 "fd0323c7588b3ae75a90b9e960ec962af9c96e7f106ba9bda80ce5f4de8fbe7c"
    GenesisBlock.Hash 1700000001
    [{ Id := "cf9a217170e33014072035f792ffc911d050cfdc3927f8943eff84293c7268f4",
       TxIns := [{ TxOutId := "", TxOutIndex := 1, Signature := "" }],
       TxOuts := [{ Address := sampleMiner, Amount := 50 }] }] 0 0

/-- The start-up chain with one transaction waiting in the pool. -/
def stateWithPool : State :=
  { BlockChain := [GenesisBlock], TransactionPool := [GenesisTransaction] }

/-! ## Concrete transactions for the worked examples -/

/-- A coinbase transaction for height 1 with two outputs, 100 and 900. -/
def twoOutputCoinbase : Transaction :=
  { Id := "472df4a0a9792654ae1722ef5aac75144daee99c3b33c8192a503972fdd7b211",
    TxIns := [{ TxOutId := "", TxOutIndex := 1, Signature := "" }],
    TxOuts := [{ Address := sampleMiner, Amount := 100 },
               { Address := sampleMiner, Amount := 900 }] }

/-- A coinbase transaction for height 1 with no output. -/
def noOutputCoinbase : Transaction :=
  { Id := "6b86b273ff34fce19d6b804eff5a3f5747ada4eaa22f1d49c01e52ddb7875b4b",
    TxIns := [{ TxOutId := "", TxOutIndex := 1, Signature := "" }],
    TxOuts := [] }

/-- A transaction with no input and the two outputs 5 and -5. -/
def negativeOutputTx : Transaction :=
  { Id := "bba3ebdefaf3905281db0c5f2333302eb2f9e70a9b8d1eb5e9f8463a96f1d838",
    TxIns := [],
    TxOuts := [{ Address := sampleMiner, Amount := 5 },
               { Address := sampleMiner, Amount := -5 }] }

/-- Two inputs that reference different outputs, `("a1", 2)` and `("a", 12)`. -/
def collidingTxIns : List TxIn :=
  [{ TxOutId := "a1", TxOutIndex := 2, Signature := "" },
   { TxOutId := "a", TxOutIndex := 12, Signature := "" }]

/-- The transactions of a block of height 2: a coinbase transaction whose input is `("a1", 2)`
and a transaction whose input is `("a", 12)`. -/
def collidingTransactions : List Transaction :=
  [{ Id := "da32d58bd02ebb9b2fcf751b265afd66b6d16044a8b892c964e60dde940445a4",
     TxIns := [{ TxOutId := "a1", TxOutIndex := 2, Signature := "" }],
     TxOuts := [{ Address := sampleMiner, Amount := 100 }] },
   { Id := "",
     TxIns := [{ TxOutId := "a", TxOutIndex := 12, Signature := "" }],
     TxOuts := [{ Address := sampleMiner, Amount := 100 }] }]

/-! ## ECDSA verification on P-256 (`crypto/ecdsa`, `crypto/elliptic`, `cryptobyte`)

A model of `ecdsa.VerifyASN1` for a public key on the curve: it is one value of the parameter
`verifyASN1`, used to run the engine on signed transactions. -/

/-- The order of the base point of P-256 (`Params().N`). -/
def p256N : Nat := 0xffffffff00000000ffffffffffffffffbce6faada7179e84f3b9cac2fc632551

/-- The base point of P-256 (`Params().Gx`, `Params().Gy`). -/
def p256G : Nat × Nat :=
  (0x6b17d1f2e12c4247f8bce6e563a440f277037d812deb33a0f4a13945d898c296,
   0x4fe342e2fe1a7f9b8ee7eb4a7c0f9e162bce33576b315ececbb6406837bf51f5)

/-- Subtraction modulo the field prime. -/
def subP (a b : Nat) : Nat := (a + (p256P - b % p256P)) % p256P

/-- Point doubling in Jacobian coordinates `(X, Y, Z)` on `y² = x³ - 3x + b`; `Z = 0` is the
point at infinity. -/
def p256Double (pt : Nat × Nat × Nat) : Nat × Nat × Nat :=
  match pt with
  | (x, y, z) =>
    if z % p256P = 0 ∨ y % p256P = 0 then (1, 1, 0)
    else
      let delta := z * z % p256P
      let gamma := y * y % p256P
      let beta := x * gamma % p256P
      let alpha := 3 * (subP x delta) * ((x + delta) % p256P) % p256P
      let x3 := subP (alpha * alpha % p256P) (8 * beta % p256P)
      let z3 := subP (subP ((y + z) * (y + z) % p256P) gamma) delta
      let y3 := subP (alpha * subP (4 * beta % p256P) x3 % p256P)
        (8 * (gamma * gamma % p256P) % p256P)
      (x3, y3, z3)

/-- Point addition in Jacobian coordinates. -/
def p256AddJ (pt qt : Nat × Nat × Nat) : Nat × Nat × Nat :=
  match pt, qt with
  | (x1, y1, z1), (x2, y2, z2) =>
    if z1 % p256P = 0 then (x2, y2, z2)
    else if z2 % p256P = 0 then (x1, y1, z1)
    else
      let z1z1 := z1 * z1 % p256P
      let z2z2 := z2 * z2 % p256P
      let u1 := x1 * z2z2 % p256P
      let u2 := x2 * z1z1 % p256P
      let s1 := y1 * z2 % p256P * z2z2 % p256P
      let s2 := y2 * z1 % p256P * z1z1 % p256P
      let h := subP u2 u1
      let r := subP s2 s1
      if h = 0 then
        if r = 0 then p256Double (x1, y1, z1) else (1, 1, 0)
      else
        let hh := h * h % p256P
        let hhh := h * hh % p256P
        let v := u1 * hh % p256P
        let x3 := subP (subP (r * r % p256P) hhh) (2 * v % p256P)
        let y3 := subP (r * subP v x3 % p256P) (s1 * hhh % p256P)
        let z3 := h * z1 % p256P * z2 % p256P
        (x3, y3, z3)

/-- Double-and-add over the bits of `k`, least significant first: `acc + k · pt`; `fuel`
bounds the number of bits of `k`. -/
def p256ScalarMultFrom : Nat → Nat → Nat × Nat × Nat → Nat × Nat × Nat → Nat × Nat × Nat
  | 0, _, _, acc => acc
  | fuel + 1, k, pt, acc =>
    if k = 0 then acc
    else
      p256ScalarMultFrom fuel (k / 2) (p256Double pt)
        (if k % 2 = 1 then p256AddJ acc pt else acc)

/-- The affine point `k · (x, y)`; `none` is the point at infinity. -/
def p256ToAffine (pt : Nat × Nat × Nat) : Option (Nat × Nat) :=
  match pt with
  | (x, y, z) =>
    if z % p256P = 0 then none
    else
      let zinv := powMod z (p256P - 2) p256P
      let zinv2 := zinv * zinv % p256P
      some (x * zinv2 % p256P, y * (zinv2 * zinv % p256P) % p256P)

/-- The point `u1 · G + u2 · Q` in affine coordinates (`CombinedMult`). -/
def p256CombinedMult (q : Nat × Nat) (u1 u2 : Nat) : Option (Nat × Nat) :=
  p256ToAffine
    (p256ScalarMultFrom u2 u2 (q.1, q.2, 1)
      (p256ScalarMultFrom u1 u1 (p256G.1, p256G.2, 1) (1, 1, 0)))

/-- One DER element with the given tag and a short-form length (`ReadASN1`): its contents and
the bytes that follow. Every signature `VerifyASN1` accepts is shorter than 128 bytes. -/
def readASN1 (tag : Nat) : List Nat → Option (List Nat × List Nat)
  | t :: len :: rest =>
    if t = tag ∧ len < 128 ∧ len ≤ rest.length then some (rest.take len, rest.drop len)
    else none
  | _ => none

/-- A minimally encoded positive DER integer (`ReadASN1Integer`, then the sign check of
`ecdsa.Verify`): its value and the bytes that follow. -/
def readPositiveInteger (bytes : List Nat) : Option (Nat × List Nat) :=
  match readASN1 2 bytes with
  | none => none
  | some (content, rest) =>
    match content with
    | [] => none
    | [b] => if b < 128 then some (b, rest) else none
    | b0 :: b1 :: more =>
      if b0 ≥ 128 then none
      else if b0 = 0 ∧ b1 < 128 then none
      else some (SetBytes (b0 :: b1 :: more), rest)

/-- The pair `(r, s)` of a DER signature: a sequence of exactly two integers, nothing after. -/
def parseSignature (sig : List Nat) : Option (Nat × Nat) :=
  match readASN1 48 sig with
  | some (inner, []) =>
    match readPositiveInteger inner with
    | some (r, afterR) =>
      match readPositiveInteger afterR with
      | some (s, []) => some (r, s)
      | _ => none
    | none => none
  | _ => none

/-- The digest as an integer (`hashToInt`): the first 32 bytes, big-endian. -/
def hashToInt (hash : List Nat) : Nat := SetBytes (hash.take 32)

/-- Model of `ecdsa.VerifyASN1` on P-256. -/
def ecdsaVerifyASN1 : VerifyASN1 := fun publicKey hash sig =>
  match parseSignature sig with
  | none => false
  | some (r, s) =>
    if r = 0 ∨ s = 0 ∨ r ≥ p256N ∨ s ≥ p256N then false
    else
      let e := hashToInt hash
      let w := powMod s (p256N - 2) p256N
      let u1 := e * w % p256N
      let u2 := r * w % p256N
      match p256CombinedMult publicKey u1 u2 with
      | none => false
      | some (x, _) => decide (x % p256N = r)

/-! ## A signed payment: concrete input for the ledger and the pool

Two key pairs were drawn outside this development; the signatures below were made with the
first key over the transaction ids. -/

def aliceAddress : String := "0220eb48d956f0cd659d85097f2fa4fb68bc3ba54a1478016674ee25a22df4ec53"

def bobAddress : String := "02e39e155e020e0c2d56a96b268e7eb32bbcf1d5e09eb9a4285fd2771fe32be156"

/-- The coinbase transaction of height 1, paying 100 to `aliceAddress`. -/
def aliceCoinbase : Transaction :=
  { Id := "2d6bbfd0510f10564724e569dfc50b39f19c0b0c80828b0f2e7965f4b66a82ef",
    TxIns :=
      [{ TxOutId := "",
         TxOutIndex := 1,
         Signature := "" }],
    TxOuts := [{ Address := aliceAddress, Amount := 100 }] }

/-- The block of height 1 mined on the genesis block at clock value 1700000001. -/
def aliceBlock : Block :=
  NewBlock 1 "e8e8e4cf9321512af3edd79c3c04a4c3b7b172cb4b1eeaa67f522e76a16b2c7f"
    GenesisBlock.Hash 1700000001 [aliceCoinbase] 0 0

/-- A payment signed with the first key: it spends the output of `aliceCoinbase` (which the
ledger of the source lists under index 1) and pays 60 to `bobAddress` and 40 to
`sampleMiner`. -/
def splitPayment : Transaction :=
  { Id := "7888cdf8b095cda098a8a9a06e7be8158ae199bde20530f41c2b2e8ddd683846",
    TxIns :=
      [{ TxOutId := "2d6bbfd0510f10564724e569dfc50b39f19c0b0c80828b0f2e7965f4b66a82ef",
         TxOutIndex := 1,
         Signature := "30450221008408bc94c8b327ae74655a396076201809645154d6534b65d416cda82afba8a902204bd78b2bff5bfb9b9c32b43a8e4728c8da137de054cb7d79a6dcdbffa6f60c55" }],
    TxOuts := [{ Address := bobAddress, Amount := 60 },
               { Address := sampleMiner, Amount := 40 }] }

/-- The coinbase transaction of height 2, paying 100 to `sampleMiner`. -/
def secondCoinbase : Transaction :=
  { Id := "ea4312691148ae0d9b8681490c1130723baf078e155b8b2e07889f07f4397220",
    TxIns :=
      [{ TxOutId := "",
         TxOutIndex := 2,
         Signature := "" }],
    TxOuts := [{ Address := sampleMiner, Amount := 100 }] }

/-- The block of height 2 mined on `aliceBlock` at clock value 1700000002; it holds the
coinbase transaction and the payment. -/
def paymentBlock : Block :=
  NewBlock 2 "ed6a16a0f13505b59a67fd2363b556c39b300dc4cdac337209e23993b3089c9a"
    aliceBlock.Hash 1700000002 [secondCoinbase, splitPayment] 0 0

/-- The chain after the two blocks. -/
def paidChain : List Block := [GenesisBlock, aliceBlock, paymentBlock]

/-- The two `AddBlockToChain` calls that build `paidChain`. -/
def paidCalls : List (Int × Block) := [(1700000001, aliceBlock), (1700000002, paymentBlock)]

/-- A second payment signed with the first key that spends the same output as `splitPayment`
and pays 100 back to `aliceAddress`. -/
def conflictingPayment : Transaction :=
  { Id := "7180829a4bd2732a48e34245eb8b6eca0f49d7df409349f1d52b843a61692987",
    TxIns :=
      [{ TxOutId := "2d6bbfd0510f10564724e569dfc50b39f19c0b0c80828b0f2e7965f4b66a82ef",
         TxOutIndex := 1,
         Signature := "304502210096803e4f967cc6572a1c6ce0d9b2f884b636369d9fbd1a5ee5cb0492339b9e7e02201066e9a8ddbdd0aa88e019a5464a1a285e29f586bab9c803a9205260780fb78c" }],
    TxOuts := [{ Address := aliceAddress, Amount := 100 }] }

/-- An unspent output of 1000 for `aliceAddress` that no block of any chain here created. -/
def forgedUnspent : UnspentTxOut :=
  { TxOutId := "aaaaaaaaaaaaaaaaaaaaaaaaaaaaaaaaaaaaaaaaaaaaaaaaaaaaaaaaaaaaaaaa", TxOutIndex := 0,
    Address := aliceAddress, Amount := 1000 }

/-- A payment signed with the first key that spends `forgedUnspent`. -/
def forgedPayment : Transaction :=
  { Id := "9506b9f790adc90ea60247163b0431e0fe509c29ee5eb05ef83337b6d990bc2f",
    TxIns :=
      [{ TxOutId := "aaaaaaaaaaaaaaaaaaaaaaaaaaaaaaaaaaaaaaaaaaaaaaaaaaaaaaaaaaaaaaaa",
         TxOutIndex := 0,
         Signature := "304502206762fb27bcf52ab6e2728602bcfe8d1d0fa590cb06984f7789e9a25779e4a34a022100ba82ad7f26dd0421a9ebd1528d79a662c1c89d76b3e1dacef1aef9fa9ee89e7b" }],
    TxOuts := [{ Address := aliceAddress, Amount := 1000 }] }

/-! ## Server.go: the send-transaction handler -/

/-- Go `crypto.SendTransactionStruct`, the decoded request body. -/
structure SendTransactionStruct where
  Transaction : Transaction
  UnspentTxOuts : List UnspentTxOut

/-- The handler on a decoded request: the transaction it finds in the pool afterwards under the
submitted id (the response body; `none` is the not-found message) and the state it leaves. -/
def SendTransaction (verifyASN1 : VerifyASN1) (s : State) (params : SendTransactionStruct) :
    Option Transaction × State :=
  let added := AddToTransactionPool verifyASN1 s params.Transaction params.UnspentTxOuts
  ((GetTransactionById added.2 params.Transaction.Id).2, added.2)

/-! ## The ledger as the specification words it (§4.3) -/

/-- The entries a transaction emits from position `k` on: one per output, with `TxOutId` the
transaction id and `TxOutIndex` the position of the output. -/
def canonicalEmitFrom (id : String) : Nat → List TxOut → List UnspentTxOut
  | _, [] => []
  | k, txOut :: rest =>
    { TxOutId := id, TxOutIndex := k, Address := txOut.Address, Amount := txOut.Amount }
      :: canonicalEmitFrom id (k + 1) rest

/-- Removal of the entry matching `(input.TxOutId, input.TxOutIndex)`, if present. -/
def canonicalSpend (unspent : List UnspentTxOut) (txIn : TxIn) : List UnspentTxOut :=
  match unspent.findIdx? fun u =>
      decide (u.TxOutId = txIn.TxOutId ∧ u.TxOutIndex = txIn.TxOutIndex) with
  | some index => unspent.eraseIdx index
  | none => unspent

/-- The canonical left-to-right fold of the specification: each transaction of each block, in
order, emits its outputs and removes the entries its inputs reference. -/
def canonicalUnspentTxOuts (blockChain : List Block) : List UnspentTxOut :=
  blockChain.foldl
    (fun acc block =>
      block.Data.foldl
        (fun acc1 transaction =>
          transaction.TxIns.foldl canonicalSpend
            (acc1 ++ canonicalEmitFrom transaction.Id 0 transaction.TxOuts)) acc)
    []

/-- The chain after the block of height 1. -/
def aliceChain : List Block := [GenesisBlock, aliceBlock]

/-- The ledger `GetAllUnspentTxOuts` derives from `aliceChain`. -/
def aliceLedger : List UnspentTxOut :=
  [{ TxOutId := GenesisTransaction.Id, TxOutIndex := 0, Address := sampleMiner, Amount := 100 },
   { TxOutId := aliceCoinbase.Id, TxOutIndex := 1, Address := aliceAddress, Amount := 100 }]

/-- The ledger `GetAllUnspentTxOuts` derives from `paidChain`. -/
def paidLedger : List UnspentTxOut :=
  [{ TxOutId := GenesisTransaction.Id, TxOutIndex := 0, Address := sampleMiner, Amount := 100 },
   { TxOutId := aliceCoinbase.Id, TxOutIndex := 1, Address := aliceAddress, Amount := 100 },
   { TxOutId := secondCoinbase.Id, TxOutIndex := 2, Address := sampleMiner, Amount := 100 },
   { TxOutId := splitPayment.Id, TxOutIndex := 1, Address := bobAddress, Amount := 60 },
   { TxOutId := splitPayment.Id, TxOutIndex := 1, Address := sampleMiner, Amount := 40 }]

/-- The state on `aliceChain` with `splitPayment` waiting in the pool. -/
def poolWithPayment : State := { BlockChain := aliceChain, TransactionPool := [splitPayment] }

/-- A submission of `forgedPayment` that brings its own list of unspent outputs. -/
def forgedRequest : SendTransactionStruct :=
  { Transaction := forgedPayment, UnspentTxOuts := [forgedUnspent] }

/-- The `Circulation` field of `Status`: the `int64` total of the amounts of the ledger. -/
def Circulation (blockChain : List Block) : Option Int :=
  (GetAllUnspentTxOuts blockChain).map GetBalanceOfUnspentTxOuts

/-! ## Calls on the pool -/

/-- A payment signed with the first key that names the output of `aliceCoinbase` in both of its
inputs and pays 200 to `bobAddress`. -/
def doubleInputPayment : Transaction :=
  { Id := "7cc0d88e3dc66318e82781fb2c4bec7216da004011c7a68a9d6ce4ec32f8a70d",
    TxIns :=
      [{ TxOutId := "2d6bbfd0510f10564724e569dfc50b39f19c0b0c80828b0f2e7965f4b66a82ef",
         TxOutIndex := 1,
         Signature := "3045022037e5dba35f83ac9109f2b6dee857e9304194c63b024d47be229970565b63ef0602210085fa7a8992cca351f91ead7232ea8317794359cb6e60be532bba8d381e3cdd02" },
       { TxOutId := "2d6bbfd0510f10564724e569dfc50b39f19c0b0c80828b0f2e7965f4b66a82ef",
         TxOutIndex := 1,
         Signature := "3045022037e5dba35f83ac9109f2b6dee857e9304194c63b024d47be229970565b63ef0602210085fa7a8992cca351f91ead7232ea8317794359cb6e60be532bba8d381e3cdd02" }],
    TxOuts := [{ Address := bobAddress, Amount := 200 }] }

/-- One call on the pool: `AddToTransactionPool` with its two arguments, or
`UpdateTransactionPool`. -/
inductive PoolCall where
  | add (transaction : Transaction) (unspentTxOuts : List UnspentTxOut)
  | update

/-- The state after a sequence of calls on the pool; an `UpdateTransactionPool` that stops
with a run-time error leaves the state as it was. -/
def runPoolCalls (verifyASN1 : VerifyASN1) (s : State) : List PoolCall → State
  | [] => s
  | PoolCall.add transaction unspentTxOuts :: rest =>
    runPoolCalls verifyASN1
      (AddToTransactionPool verifyASN1 s transaction unspentTxOuts).2 rest
  | PoolCall.update :: rest =>
    runPoolCalls verifyASN1 ((UpdateTransactionPool s).getD s) rest

/-- The state on `paidChain` with the confirmed payment and a second payment in the pool. -/
def confirmedInPool : State :=
  { BlockChain := paidChain, TransactionPool := [splitPayment, conflictingPayment] }

/-! ## Compressed addresses -/

/-- Compressed form of a point, as the specification words it: the tag byte `0x02` for an even
`y` and `0x03` for an odd one, then `x` on 32 big-endian bytes, hex-encoded. -/
def compressPoint (x y : Nat) : String :=
  hexEncode ((if y % 2 = 0 then 2 else 3) :: beBytes 32 x)

/-! ## Transactions without inputs and a block with a forged payment -/

/-- A transaction with no input whose three outputs add up to `2 ^ 64`. -/
def overflowingOutputs : Transaction :=
  { Id := "508fb0fbb2737a73a91928914219fe5b9abced2de8462ebb545ca4de5d6ca223",
    TxIns := [],
    TxOuts := [{ Address := aliceAddress, Amount := 9223372036854775807 },
               { Address := aliceAddress, Amount := 9223372036854775807 },
               { Address := aliceAddress, Amount := 2 }] }

/-- A transaction with no input and one output, of amount 0. -/
def noInputPayment : Transaction :=
  { Id := "1326f444d4d0e685fb988f541a7b9b8e8784d4bd7e489d4ca075a3db41c9f12c",
    TxIns := [],
    TxOuts := [{ Address := aliceAddress, Amount := 0 }] }

/-- A block of height 1 on the genesis block that holds `aliceCoinbase` and `noInputPayment`. -/
def noInputBlock : Block :=
  NewBlock 1 "ce0878c7d2eaa2fe7e81f6243b2df0c18f15efc682160423d31fa93480b694fe"
    GenesisBlock.Hash 1700000001 [aliceCoinbase, noInputPayment] 0 0

/-- The chain after `noInputBlock`. -/
def noInputChain : List Block := [GenesisBlock, noInputBlock]

/-- A block of height 1 on the genesis block that holds `aliceCoinbase` and `forgedPayment`. -/
def forgedBlock : Block :=
  NewBlock 1 "5425eac779ed40506398d4122a170e6d96aaa6d2bc35ae2958343490927036b5"
    GenesisBlock.Hash 1700000001 [aliceCoinbase, forgedPayment] 0 0

/-! ## Machine integers: basic facts -/

theorem wrap64_of_inInt64 {x : Int} (h : InInt64 x) : wrap64 x = x := by
  unfold InInt64 at h
  unfold wrap64
  omega

theorem wrap64_inInt64 (x : Int) : InInt64 (wrap64 x) := by
  unfold InInt64 wrap64
  omega

theorem wrap64_add_wrap64 (a b : Int) : wrap64 (wrap64 a + b) = wrap64 (a + b) := by
  unfold wrap64
  omega

/-! ## Block validation -/

theorem HasValidHash_eq_some_true (block : Block) :
    HasValidHash block = some true ↔
      block.Hash = CalculateHashForBlock block ∧
      HashMatchesDifficulty block.Hash block.Difficulty = some true := by
  unfold HasValidHash HasMatchesBlockContent
  by_cases h : block.Hash = CalculateHashForBlock block
  · rcases hm : HashMatchesDifficulty block.Hash block.Difficulty with _ | b
    · simp [h.symm]
    · cases b <;> simp [h.symm]
  · simp [h]

theorem isValidTimestamp_eq_true (now : Int) (newBlock previousBlock : Block) :
    isValidTimestamp now newBlock previousBlock = true ↔
      (sub64 previousBlock.Timestamp 60 < newBlock.Timestamp ∧
        sub64 newBlock.Timestamp 60 < now) := by
  unfold isValidTimestamp
  simp

/-- Every check that a block accepted by `isValidBlock` has passed. -/
theorem isValidBlock_accepted {now : Int} {newBlock previousBlock : Block}
    (h : isValidBlock now newBlock previousBlock = some true) :
    newBlock.Index = add64 previousBlock.Index 1 ∧
      newBlock.PreviousHash = previousBlock.Hash ∧
      CalculateHashForBlock newBlock = newBlock.Hash ∧
      (sub64 previousBlock.Timestamp 60 < newBlock.Timestamp ∧
        sub64 newBlock.Timestamp 60 < now) ∧
      HashMatchesDifficulty newBlock.Hash newBlock.Difficulty = some true := by
  unfold isValidBlock at h
  split_ifs at h with h1 h2 h3 h4
  · cases h
  · cases h
  · cases h
  · cases h
  · have h1' : add64 previousBlock.Index 1 = newBlock.Index := not_not.mp h1
    have h2' : previousBlock.Hash = newBlock.PreviousHash := not_not.mp h2
    have h3' : CalculateHashForBlock newBlock = newBlock.Hash := not_not.mp h3
    have h4' : isValidTimestamp now newBlock previousBlock = true := by
      cases hb : isValidTimestamp now newBlock previousBlock
      · rw [hb] at h4; exact absurd rfl h4
      · rfl
    have hv : HasValidHash newBlock = some true := by
      rcases hv : HasValidHash newBlock with _ | b
      · rw [hv] at h; cases h
      · cases b
        · rw [hv] at h; cases h
        · rfl
    exact ⟨h1'.symm, h2'.symm, h3', (isValidTimestamp_eq_true _ _ _).mp h4',
      ((HasValidHash_eq_some_true newBlock).mp hv).2⟩

/-- C2: `isValidBlock` returns true exactly when the five conditions hold: the index is the
previous index plus one, the previous-hash link matches, the hash recomputes, the two timestamp
inequalities hold, and the hash matches the difficulty (`+` and `-` are those of Go on `int64`,
`now` is the clock value read by the call). -/
theorem isValidBlock_eq_some_true_iff (now : Int) (newBlock previousBlock : Block) :
    isValidBlock now newBlock previousBlock = some true ↔
      newBlock.Index = add64 previousBlock.Index 1 ∧
      newBlock.PreviousHash = previousBlock.Hash ∧
      CalculateHashForBlock newBlock = newBlock.Hash ∧
      (sub64 previousBlock.Timestamp 60 < newBlock.Timestamp ∧
        sub64 newBlock.Timestamp 60 < now) ∧
      HashMatchesDifficulty newBlock.Hash newBlock.Difficulty = some true := by
  constructor
  · exact isValidBlock_accepted
  · rintro ⟨h1, h2, h3, h4, h6⟩
    have hv : HasValidHash newBlock = some true :=
      (HasValidHash_eq_some_true newBlock).mpr ⟨h3.symm, h6⟩
    have h4' := (isValidTimestamp_eq_true now newBlock previousBlock).mpr h4
    unfold isValidBlock
    rw [if_neg (not_not.mpr h1.symm), if_neg (not_not.mpr h2.symm), if_neg (not_not.mpr h3),
      h4', hv]
    rfl

/-- The first sample block on the genesis block, at the clock value of its own timestamp: all
five conditions hold and `isValidBlock` returns true. -/
theorem isValidBlock_eq_some_true_iff_witness :
    isValidBlock 1700000001 (sampleBlocks.headD GenesisBlock) GenesisBlock = some true :=
  (isValidBlock_eq_some_true_iff 1700000001 (sampleBlocks.headD GenesisBlock) GenesisBlock).mpr
    ⟨by decide, by decide, by decide!, by decide, by decide!⟩

/-! ## Appending a block -/

theorem UpdateTransactionPool_chain {s t : State} (h : UpdateTransactionPool s = some t) :
    t.BlockChain = s.BlockChain := by
  unfold UpdateTransactionPool at h
  split at h
  · cases h
  · cases h; rfl

/-- What one call of `AddBlockToChain` can do to the state: nothing, unless the call did not
return false, the block is valid on the tip, and it has been appended. -/
theorem AddBlockToChain_outcome (verifyASN1 : VerifyASN1) (now : Int) (s : State)
    (block : Block) :
    (AddBlockToChain verifyASN1 now s block).2 = s ∨
      ((AddBlockToChain verifyASN1 now s block).1 ≠ some false ∧
        (∃ latest, s.BlockChain.getLast? = some latest ∧
          isValidBlock now block latest = some true) ∧
        (AddBlockToChain verifyASN1 now s block).2.BlockChain = s.BlockChain ++ [block]) := by
  unfold AddBlockToChain GetLatestBlock
  split
  · exact Or.inl rfl
  · rename_i latest hl
    split
    · exact Or.inl rfl
    · exact Or.inl rfl
    · rename_i hv
      split
      · exact Or.inl rfl
      · split
        · exact Or.inl rfl
        · exact Or.inl rfl
        · dsimp only
          split
          · exact Or.inr ⟨by simp, ⟨latest, hl, hv⟩, rfl⟩
          · rename_i pruned hp
            exact Or.inr ⟨by simp, ⟨latest, hl, hv⟩, UpdateTransactionPool_chain hp⟩

/-- C3: when `AddBlockToChain` returns false, the chain and the transaction pool (the whole
engine state) are what they were before the call. -/
theorem AddBlockToChain_false_state_unchanged (verifyASN1 : VerifyASN1) (now : Int) (s : State)
    (block : Block) (h : (AddBlockToChain verifyASN1 now s block).1 = some false) :
    (AddBlockToChain verifyASN1 now s block).2.BlockChain = s.BlockChain ∧
      (AddBlockToChain verifyASN1 now s block).2.TransactionPool = s.TransactionPool := by
  rcases AddBlockToChain_outcome verifyASN1 now s block with h1 | ⟨h1, _⟩
  · rw [h1]; exact ⟨rfl, rfl⟩
  · exact absurd h h1

/-- A block that passes `isValidBlock` and fails the transaction check: the call returns false
and leaves the chain and the pool as they were. -/
theorem AddBlockToChain_false_state_unchanged_witness :
    (isValidBlock 1700000001 underpaidBlock GenesisBlock = some true ∧
      (AddBlockToChain rejectAll 1700000001 stateWithPool underpaidBlock).1 = some false) ∧
      (AddBlockToChain rejectAll 1700000001 stateWithPool underpaidBlock).2.BlockChain
        = stateWithPool.BlockChain ∧
      (AddBlockToChain rejectAll 1700000001 stateWithPool underpaidBlock).2.TransactionPool
        = stateWithPool.TransactionPool :=
  ⟨⟨by decide!, by decide!⟩,
    AddBlockToChain_false_state_unchanged rejectAll 1700000001 stateWithPool underpaidBlock
      (by decide!)⟩

/-- The sample chain is what ten `AddBlockToChain` calls build on the genesis block. -/
theorem sampleChain_reachable :
    (runAddBlocks rejectAll initialState sampleCalls).BlockChain = sampleChain := by
  decide!

theorem sampleChain_length : sampleChain.length = 11 := by
  decide!

/-! ## The chain invariant -/

/-- Any relation that holds between the tip and every block `isValidBlock` accepts on it holds
between all neighbours of the chain after any sequence of `AddBlockToChain` calls. -/
theorem runAddBlocks_chain (verifyASN1 : VerifyASN1) (R : Block → Block → Prop)
    (hR : ∀ now block latest, isValidBlock now block latest = some true → R latest block)
    (calls : List (Int × Block)) :
    ∀ s : State, List.Chain' R s.BlockChain →
      List.Chain' R (runAddBlocks verifyASN1 s calls).BlockChain := by
  induction calls with
  | nil => intro s hs; exact hs
  | cons call rest ih =>
    intro s hs
    obtain ⟨now, block⟩ := call
    show List.Chain' R
      (runAddBlocks verifyASN1 (AddBlockToChain verifyASN1 now s block).2 rest).BlockChain
    apply ih
    rcases AddBlockToChain_outcome verifyASN1 now s block with h | ⟨_, ⟨latest, hl, hv⟩, happ⟩
    · rw [h]; exact hs
    · rw [happ, List.chain'_append]
      refine ⟨hs, List.chain'_singleton _, ?_⟩
      intro x hx y hy
      rw [hl] at hx
      simp only [Option.mem_def, Option.some.injEq, List.head?_cons] at hx hy
      subst hx
      subst hy
      exact hR now _ _ hv

/-- The block at position `i` carries the index `i` (reduced to `int64`) after any sequence of
`AddBlockToChain` calls, if it does before. -/
theorem runAddBlocks_index (verifyASN1 : VerifyASN1) (calls : List (Int × Block)) :
    ∀ s : State, (∀ (i : Nat) (b : Block), s.BlockChain[i]? = some b → b.Index = wrap64 i) →
      ∀ (i : Nat) (b : Block), (runAddBlocks verifyASN1 s calls).BlockChain[i]? = some b →
        b.Index = wrap64 i := by
  induction calls with
  | nil => intro s hs; exact hs
  | cons call rest ih =>
    intro s hs
    obtain ⟨now, block⟩ := call
    show ∀ (i : Nat) (b : Block),
      (runAddBlocks verifyASN1 (AddBlockToChain verifyASN1 now s block).2 rest).BlockChain[i]?
        = some b → b.Index = wrap64 i
    apply ih
    rcases AddBlockToChain_outcome verifyASN1 now s block with h | ⟨_, ⟨latest, hl, hv⟩, happ⟩
    · rw [h]; exact hs
    · intro i b hb
      rw [happ, List.getElem?_append] at hb
      split at hb
      · exact hs i b hb
      · rename_i hlen
        have hi : i = s.BlockChain.length := by
          by_contra hne
          have : 1 ≤ i - s.BlockChain.length := by omega
          rw [List.getElem?_eq_none (by simpa using this)] at hb
          cases hb
        subst hi
        simp only [Nat.sub_self, List.getElem?_cons_zero, Option.some.injEq] at hb
        subst hb
        rw [List.getLast?_eq_getElem?] at hl
        have hlat := hs _ _ hl
        have hpos : 0 < s.BlockChain.length := by
          by_contra h0
          have : s.BlockChain.length = 0 := by omega
          rw [List.getElem?_eq_none (by omega)] at hl
          cases hl
        have hidx := (isValidBlock_accepted hv).1
        rw [hidx, hlat]
        unfold add64
        rw [wrap64_add_wrap64]
        congr 1
        omega

/-- C1: starting from the chain `[GenesisBlock]`, after any sequence of `AddBlockToChain` calls
(returning true, false or stopping with a run-time error, at any clock values) every adjacent
pair `(a, b)` of the chain has `b.Index = a.Index + 1` (Go `int64` addition),
`b.PreviousHash = a.Hash`, `CalculateHashForBlock b = b.Hash` and
`HashMatchesDifficulty b.Hash b.Difficulty` true. Moreover the block at position `i` has index
`i` for every position below 2^63, so there the addition is that of the integers. -/
theorem chain_invariant (verifyASN1 : VerifyASN1) (calls : List (Int × Block)) :
    List.Chain'
        (fun a b => b.Index = add64 a.Index 1 ∧ b.PreviousHash = a.Hash ∧
          CalculateHashForBlock b = b.Hash ∧
          HashMatchesDifficulty b.Hash b.Difficulty = some true)
        (runAddBlocks verifyASN1 initialState calls).BlockChain ∧
      ∀ (i : Nat) (b : Block),
        (runAddBlocks verifyASN1 initialState calls).BlockChain[i]? = some b →
          i < 9223372036854775808 → b.Index = i := by
  constructor
  · apply runAddBlocks_chain
    · intro now block latest hv
      have h := isValidBlock_accepted hv
      exact ⟨h.1, h.2.1, h.2.2.1, h.2.2.2.2⟩
    · exact List.chain'_singleton _
  · intro i b hb hi
    have h := runAddBlocks_index verifyASN1 calls initialState (by
      intro j c hc
      match j, hc with
      | 0, hc =>
        simp only [initialState, List.getElem?_cons_zero, Option.some.injEq] at hc
        subst hc
        rfl
      | j + 1, hc => simp [initialState] at hc) i b hb
    rw [h]
    unfold wrap64
    omega

/-- The invariant on a chain that has grown: the ten sample blocks appended to the genesis
block. -/
theorem chain_invariant_witness :
    (runAddBlocks rejectAll initialState sampleCalls).BlockChain.length = 11 ∧
      (List.Chain'
        (fun a b => b.Index = add64 a.Index 1 ∧ b.PreviousHash = a.Hash ∧
          CalculateHashForBlock b = b.Hash ∧
          HashMatchesDifficulty b.Hash b.Difficulty = some true)
        (runAddBlocks rejectAll initialState sampleCalls).BlockChain ∧
      ∀ (i : Nat) (b : Block),
        (runAddBlocks rejectAll initialState sampleCalls).BlockChain[i]? = some b →
          i < 9223372036854775808 → b.Index = i) :=
  ⟨(congrArg List.length sampleChain_reachable).trans sampleChain_length,
    chain_invariant rejectAll sampleCalls⟩

/-! ## Difficulty retargeting -/

theorem getAdjustedDifficulty_eq (latest A : Block) (chain : List Block)
    (hlen : 10 ≤ chain.length) (hA : chain[chain.length - 10]? = some A) :
    getAdjustedDifficulty latest chain = some (
      if sub64 latest.Timestamp A.Timestamp < 50 then add64 A.Difficulty 1
      else if sub64 latest.Timestamp A.Timestamp > 200 then
        (if A.Difficulty > 0 then sub64 A.Difficulty 1 else 0)
      else A.Difficulty) := by
  unfold getAdjustedDifficulty
  have h1 : ¬ chain.length < DifficultyAdjustmentInterval := by
    unfold DifficultyAdjustmentInterval; omega
  rw [if_neg h1, List.get?_eq_getElem?]
  have h2 : chain.length - DifficultyAdjustmentInterval = chain.length - 10 := rfl
  rw [h2, hA]
  have h3 : Int.tdiv (BlockGenerationInterval * (DifficultyAdjustmentInterval : Int)) 2 = 50 := by
    decide
  have h4 : BlockGenerationInterval * (DifficultyAdjustmentInterval : Int) * 2 = 200 := by
    decide
  simp only [h3, h4]
  split_ifs <;> rfl

theorem GetDifficulty_eq (chain : List Block) (tip : Block) (htip : chain.getLast? = some tip) :
    GetDifficulty chain =
      if (10 : Int) ∣ tip.Index ∧ tip.Index ≠ 0 then getAdjustedDifficulty tip chain
      else some tip.Difficulty := by
  unfold GetDifficulty
  rw [htip]
  simp only [DifficultyAdjustmentInterval, Nat.cast_ofNat, Int.dvd_iff_tmod_eq_zero]

/-- C4 (amended): on a chain of at least 10 blocks, `GetDifficulty` is the tip's difficulty when
the tip's index is 0 or not a multiple of 10; otherwise, with `A = chain[len(chain) - 10]` the
block the code selects and `timeTaken = tip.Timestamp - A.Timestamp` (Go `int64` subtraction),
it is `A.Difficulty + 1` (Go addition) if `timeTaken < 50`, `max (A.Difficulty - 1) 0` if
`timeTaken > 200`, and `A.Difficulty` otherwise. When `0 ≤ A.Difficulty < 2^63 - 1`, a retarget
moves the difficulty by at most one step and never below 0. -/
theorem GetDifficulty_retarget (chain : List Block) (tip A : Block)
    (hlen : 10 ≤ chain.length) (htip : chain.getLast? = some tip)
    (hA : chain[chain.length - 10]? = some A) (hty : InInt64 A.Difficulty) :
    ((tip.Index = 0 ∨ ¬ (10 : Int) ∣ tip.Index) → GetDifficulty chain = some tip.Difficulty) ∧
    ((tip.Index ≠ 0 ∧ (10 : Int) ∣ tip.Index) →
      GetDifficulty chain = some (
        if sub64 tip.Timestamp A.Timestamp < 50 then add64 A.Difficulty 1
        else if sub64 tip.Timestamp A.Timestamp > 200 then max (A.Difficulty - 1) 0
        else A.Difficulty)) ∧
    ((tip.Index ≠ 0 ∧ (10 : Int) ∣ tip.Index) →
      0 ≤ A.Difficulty → A.Difficulty < 9223372036854775807 →
      ∃ d, GetDifficulty chain = some d ∧ 0 ≤ d ∧ |d - A.Difficulty| ≤ 1) := by
  have hG := GetDifficulty_eq chain tip htip
  have hadj := getAdjustedDifficulty_eq tip A chain hlen hA
  have hdec : (if A.Difficulty > 0 then sub64 A.Difficulty 1 else 0) = max (A.Difficulty - 1) 0 := by
    unfold InInt64 at hty
    split_ifs with hpos
    · have : sub64 A.Difficulty 1 = A.Difficulty - 1 :=
        wrap64_of_inInt64 (by unfold InInt64; omega)
      rw [this]; omega
    · omega
  refine ⟨?_, ?_, ?_⟩
  · intro h
    rw [hG, if_neg]
    rintro ⟨hd, hne⟩
    rcases h with h | h
    · exact hne h
    · exact h hd
  · rintro ⟨hne, hd⟩
    rw [hG, if_pos ⟨hd, hne⟩, hadj, hdec]
  · rintro ⟨hne, hd⟩ h0 hmax
    rw [hG, if_pos ⟨hd, hne⟩, hadj, hdec]
    have hinc : add64 A.Difficulty 1 = A.Difficulty + 1 :=
      wrap64_of_inInt64 (by unfold InInt64; omega)
    rw [hinc]
    split_ifs
    · exact ⟨_, rfl, by omega, by rw [abs_le]; constructor <;> omega⟩
    · exact ⟨_, rfl, by omega, by rw [abs_le]; constructor <;> omega⟩
    · exact ⟨_, rfl, by omega, by rw [abs_le]; constructor <;> omega⟩

theorem GetDifficulty_retarget_witness :
    10 ≤ sampleChain.length ∧ sampleChain.getLast?.map (fun b => b.Index) = some 10 ∧
      GetDifficulty sampleChain = some 1 := by
  have hlen : 10 ≤ sampleChain.length := by decide
  have hty : InInt64 (sampleChain.getD 1 GenesisBlock).Difficulty := by decide
  have h := GetDifficulty_retarget sampleChain (sampleChain.getD 10 GenesisBlock)
    (sampleChain.getD 1 GenesisBlock) hlen (by decide) (by decide) hty
  refine ⟨hlen, by decide, ?_⟩
  rw [h.2.1 ⟨by decide, by decide⟩]
  decide

/-- C4, as stated, fails: on a chain of 10 blocks whose tip has index 10, with the selected
block of difficulty -1 and 100 s elapsed, `GetDifficulty` is -1, which is below 0. -/
theorem GetDifficulty_negative_counterexample :
    negativeDifficultyChain.length = 10 ∧
      negativeDifficultyChain.getLast?.map (fun b => b.Index) = some 10 ∧
      negativeDifficultyChain[negativeDifficultyChain.length - 10]?.map
        (fun b => b.Difficulty) = some (-1) ∧
      GetDifficulty negativeDifficultyChain = some (-1) := by
  decide

/-- On a chain whose block at position `i` has index `i`, with a tip index of at least 10, the
block `chain[len(chain) - 10]` that `getAdjustedDifficulty` selects is the block of index
`tip.Index - 9`: the measured window spans 9 block intervals. -/
theorem getAdjustedDifficulty_selected_index (chain : List Block) (tip : Block)
    (hpos : ∀ (i : Nat) (b : Block), chain[i]? = some b → b.Index = i)
    (htip : chain.getLast? = some tip) (h10 : 10 ≤ tip.Index) :
    ∃ A, chain[chain.length - 10]? = some A ∧ A.Index = tip.Index - 9 := by
  rw [List.getLast?_eq_getElem?] at htip
  have hlen : 0 < chain.length := by
    by_contra h0
    rw [List.getElem?_eq_none (by omega)] at htip
    cases htip
  have htipIdx := hpos _ _ htip
  have hlt : chain.length - 10 < chain.length := by omega
  refine ⟨chain[chain.length - 10], List.getElem?_eq_getElem hlt, ?_⟩
  rw [hpos _ _ (List.getElem?_eq_getElem hlt), htipIdx]
  omega

/-- C5: the worked chain of 11 blocks, heights 0 to 10, is reachable from the genesis block by
`AddBlockToChain` calls. The code selects `chain[len(chain) - 10]`, the block of index 1, so it
measures 1700000010 - 1700000001 = 9 s over 9 block intervals and answers difficulty 0 + 1 = 1;
the block of index `tip.Index - 10 = 0` has timestamp 1, which gives 1700000009 s. -/
theorem GetDifficulty_sample_window :
    (runAddBlocks rejectAll initialState sampleCalls).BlockChain = sampleChain ∧
      sampleChain.map (fun b => b.Index) = [0, 1, 2, 3, 4, 5, 6, 7, 8, 9, 10] ∧
      sampleChain.getLast?.map (fun b => (b.Index, b.Timestamp)) = some (10, 1700000010) ∧
      sampleChain[sampleChain.length - 10]?.map
        (fun b => (b.Index, b.Timestamp, b.Difficulty)) = some (1, 1700000001, 0) ∧
      sampleChain[0]?.map
        (fun b => (b.Index, b.Timestamp, b.Difficulty)) = some (0, 1, 0) ∧
      GetDifficulty sampleChain = some 1 :=
  ⟨sampleChain_reachable, by decide⟩

/-! ## Mining -/

theorem HasValidHash_NewBlock (index : Int) (previousHash : String) (timestamp : Int)
    (data : List Transaction) (difficulty : Int) (nonce : Nat)
    (h : HashMatchesDifficulty
      (CalculateHash index previousHash timestamp data difficulty nonce) difficulty = some true) :
    HasValidHash (NewBlock index
      (CalculateHash index previousHash timestamp data difficulty nonce)
      previousHash timestamp data difficulty nonce) = some true := by
  rw [HasValidHash_eq_some_true]
  exact ⟨rfl, h⟩

theorem FindBlockLoop_reaches (index : Int) (previousHash : String) (timestamp : Int)
    (data : List Transaction) (difficulty : Int) (n : Nat) (hn : n < 4294967296)
    (hmatch : HashMatchesDifficulty
      (CalculateHash index previousHash timestamp data difficulty n) difficulty = some true)
    (k : Nat) :
    ∀ (nonce fuel : Nat), nonce + k = n → k < fuel →
      (∀ m, nonce ≤ m → m < n → HashMatchesDifficulty
        (CalculateHash index previousHash timestamp data difficulty m) difficulty = some false) →
      FindBlockLoop index previousHash timestamp data difficulty fuel nonce =
        some (NewBlock index (CalculateHash index previousHash timestamp data difficulty n)
          previousHash timestamp data difficulty n) := by
  induction k with
  | zero =>
    intro nonce fuel hk hf _
    have hnonce : nonce = n := by omega
    subst hnonce
    obtain ⟨f, rfl⟩ : ∃ f, fuel = f + 1 := ⟨fuel - 1, by omega⟩
    unfold FindBlockLoop
    simp only [hmatch]
  | succ k ih =>
    intro nonce fuel hk hf hlow
    obtain ⟨f, rfl⟩ : ∃ f, fuel = f + 1 := ⟨fuel - 1, by omega⟩
    unfold FindBlockLoop
    simp only [hlow nonce (le_refl _) (by omega)]
    have hstep : (nonce + 1) % 4294967296 = nonce + 1 := Nat.mod_eq_of_lt (by omega)
    rw [hstep]
    exact ih (nonce + 1) f (by omega) (by omega) (fun m hm1 hm2 => hlow m (by omega) hm2)

/-- C7: if some 32-bit nonce makes the hash match the difficulty, `FindBlock` returns (within
the 2^32 nonces) the block with the five given fields, the least such nonce `n`, and the hash
`CalculateHash` yields at `n`; that block passes `HasValidHash`. -/
theorem FindBlock_returns_least (index : Int) (previousHash : String) (timestamp : Int)
    (data : List Transaction) (difficulty : Int)
    (h : ∃ n, n < 4294967296 ∧ HashMatchesDifficulty
      (CalculateHash index previousHash timestamp data difficulty n) difficulty = some true) :
    ∃ n, n < 4294967296 ∧
      HashMatchesDifficulty
        (CalculateHash index previousHash timestamp data difficulty n) difficulty = some true ∧
      (∀ m, m < n → HashMatchesDifficulty
        (CalculateHash index previousHash timestamp data difficulty m) difficulty ≠ some true) ∧
      FindBlock index previousHash timestamp data difficulty =
        some { Index := index,
               Hash := CalculateHash index previousHash timestamp data difficulty n,
               PreviousHash := previousHash, Timestamp := timestamp, Data := data,
               Difficulty := difficulty, Nonce := n } ∧
      HasValidHash
        { Index := index,
          Hash := CalculateHash index previousHash timestamp data difficulty n,
          PreviousHash := previousHash, Timestamp := timestamp, Data := data,
          Difficulty := difficulty, Nonce := n } = some true := by
  classical
  have hex : ∃ n, HashMatchesDifficulty
      (CalculateHash index previousHash timestamp data difficulty n) difficulty = some true := by
    obtain ⟨n, _, hn⟩ := h
    exact ⟨n, hn⟩
  have hmin := Nat.find_spec hex
  have hlow : ∀ m, m < Nat.find hex → HashMatchesDifficulty
      (CalculateHash index previousHash timestamp data difficulty m) difficulty ≠ some true :=
    fun m hm => Nat.find_min hex hm
  have hlt : Nat.find hex < 4294967296 := by
    obtain ⟨n, hn, hn'⟩ := h
    exact lt_of_le_of_lt (Nat.find_min' hex hn') hn
  have hd : ¬ difficulty < 0 := by
    intro hneg
    unfold HashMatchesDifficulty Repeat at hmin
    simp [hneg] at hmin
  have hfalse : ∀ m, 0 ≤ m → m < Nat.find hex → HashMatchesDifficulty
      (CalculateHash index previousHash timestamp data difficulty m) difficulty = some false := by
    intro m _ hm
    have hne := hlow m hm
    unfold HashMatchesDifficulty Repeat at hne ⊢
    simp only [hd, if_false] at hne ⊢
    simpa using hne
  refine ⟨Nat.find hex, hlt, hmin, hlow, ?_, ?_⟩
  · exact FindBlockLoop_reaches index previousHash timestamp data difficulty (Nat.find hex) hlt
      hmin (Nat.find hex) 0 4294967296 (by omega) hlt hfalse
  · exact HasValidHash_NewBlock index previousHash timestamp data difficulty (Nat.find hex) hmin

theorem FindBlock_returns_least_witness :
    (∃ n, n < 4294967296 ∧ HashMatchesDifficulty
      (CalculateHash 1 GenesisBlock.Hash 1700000001 [] 2 n) 2 = some true) ∧
    ∃ n, n < 4294967296 ∧
      HashMatchesDifficulty
        (CalculateHash 1 GenesisBlock.Hash 1700000001 [] 2 n) 2 = some true ∧
      (∀ m, m < n → HashMatchesDifficulty
        (CalculateHash 1 GenesisBlock.Hash 1700000001 [] 2 m) 2 ≠ some true) ∧
      FindBlock 1 GenesisBlock.Hash 1700000001 [] 2 =
        some { Index := 1,
               Hash := CalculateHash 1 GenesisBlock.Hash 1700000001 [] 2 n,
               PreviousHash := GenesisBlock.Hash, Timestamp := 1700000001, Data := [],
               Difficulty := 2, Nonce := n } ∧
      HasValidHash
        { Index := 1,
          Hash := CalculateHash 1 GenesisBlock.Hash 1700000001 [] 2 n,
          PreviousHash := GenesisBlock.Hash, Timestamp := 1700000001, Data := [],
          Difficulty := 2, Nonce := n } = some true :=
  ⟨⟨8, by decide, by decide!⟩,
    FindBlock_returns_least 1 GenesisBlock.Hash 1700000001 [] 2 ⟨8, by decide, by decide!⟩⟩

/-- The mining of the witness above, evaluated: the first eight nonces fail, nonce 8 matches. -/
theorem FindBlock_example :
    FindBlock 1 GenesisBlock.Hash 1700000001 [] 2 =
      some { Index := 1,
             Hash := "381f2b90f0c41e171da6c1dc9695a9e22c89754898d278a0849f34cc37c3d51e",
             PreviousHash := GenesisBlock.Hash, Timestamp := 1700000001, Data := [],
             Difficulty := 2, Nonce := 8 } := by
  decide!

/-! ## Timestamps -/

/-- C8: with no `int64` overflow in the two subtractions of `isValidTimestamp`, a new block
with timestamp `previous - 60` is rejected and one with `previous - 59` is accepted when it is
not in the future (its timestamp less 60 s is before the clock, as for every timestamp up to
`now`); a new block with timestamp `now + 60` is rejected and one with `now + 59` is accepted
when it is later than `previous - 60`. -/
theorem isValidTimestamp_boundaries (now : Int) (newBlock previousBlock : Block)
    (hprev : InInt64 (previousBlock.Timestamp - 60)) (hnew : InInt64 (newBlock.Timestamp - 60)) :
    (newBlock.Timestamp = previousBlock.Timestamp - 60 →
      isValidTimestamp now newBlock previousBlock = false) ∧
    (newBlock.Timestamp = previousBlock.Timestamp - 59 → newBlock.Timestamp - 60 < now →
      isValidTimestamp now newBlock previousBlock = true) ∧
    (newBlock.Timestamp = now + 60 →
      isValidTimestamp now newBlock previousBlock = false) ∧
    (newBlock.Timestamp = now + 59 → previousBlock.Timestamp - 60 < newBlock.Timestamp →
      isValidTimestamp now newBlock previousBlock = true) := by
  have h1 : sub64 previousBlock.Timestamp 60 = previousBlock.Timestamp - 60 :=
    wrap64_of_inInt64 hprev
  have h2 : sub64 newBlock.Timestamp 60 = newBlock.Timestamp - 60 := wrap64_of_inInt64 hnew
  unfold isValidTimestamp
  rw [h1, h2]
  refine ⟨?_, ?_, ?_, ?_⟩
  · intro h
    simp only [Bool.and_eq_false_imp, decide_eq_true_eq, decide_eq_false_iff_not]
    omega
  · intro h hfut
    simp only [Bool.and_eq_true, decide_eq_true_eq]
    omega
  · intro h
    simp only [Bool.and_eq_false_imp, decide_eq_true_eq, decide_eq_false_iff_not]
    omega
  · intro h hlate
    simp only [Bool.and_eq_true, decide_eq_true_eq]
    omega

theorem isValidTimestamp_boundaries_witness :
    (InInt64 ((1000 : Int) - 60) ∧ InInt64 ((940 : Int) - 60)) ∧
      isValidTimestamp 2000 (NewBlock 1 "" "" 940 [] 0 0) (NewBlock 0 "" "" 1000 [] 0 0) = false ∧
      isValidTimestamp 2000 (NewBlock 1 "" "" 941 [] 0 0) (NewBlock 0 "" "" 1000 [] 0 0) = true ∧
      isValidTimestamp 2000 (NewBlock 1 "" "" 2060 [] 0 0) (NewBlock 0 "" "" 1000 [] 0 0) = false ∧
      isValidTimestamp 2000 (NewBlock 1 "" "" 2059 [] 0 0) (NewBlock 0 "" "" 1000 [] 0 0) = true :=
  ⟨⟨by decide, by decide⟩,
    (isValidTimestamp_boundaries 2000 (NewBlock 1 "" "" 940 [] 0 0) (NewBlock 0 "" "" 1000 [] 0 0)
      (by decide) (by decide)).1 rfl,
    (isValidTimestamp_boundaries 2000 (NewBlock 1 "" "" 941 [] 0 0) (NewBlock 0 "" "" 1000 [] 0 0)
      (by decide) (by decide)).2.1 rfl (by decide),
    (isValidTimestamp_boundaries 2000 (NewBlock 1 "" "" 2060 [] 0 0)
      (NewBlock 0 "" "" 1000 [] 0 0) (by decide) (by decide)).2.2.1 rfl,
    (isValidTimestamp_boundaries 2000 (NewBlock 1 "" "" 2059 [] 0 0)
      (NewBlock 0 "" "" 1000 [] 0 0) (by decide) (by decide)).2.2.2 rfl (by decide)⟩

/-! ## Transaction ids -/

theorem foldl_append_eq_join {α : Type} (f : α → String) (l : List α) :
    ∀ init : String, l.foldl (fun b x => b ++ f x) init = init ++ String.join (l.map f) := by
  induction l with
  | nil => intro init; simp [String.join]
  | cons a l ih =>
    intro init
    simp only [List.foldl_cons, List.map_cons]
    rw [ih]
    have hjoin : ∀ (xs : List String) (acc : String),
        xs.foldl (fun r s => r ++ s) acc = acc ++ xs.foldl (fun r s => r ++ s) "" := by
      intro xs
      induction xs with
      | nil => intro acc; simp
      | cons x xs ihx =>
        intro acc
        simp only [List.foldl_cons]
        rw [ihx (acc ++ x), ihx ("" ++ x)]
        simp [String.append_assoc]
    show init ++ f a ++ String.join (l.map f) = init ++ String.join (f a :: l.map f)
    unfold String.join
    simp only [List.foldl_cons]
    rw [hjoin (l.map f) ("" ++ f a)]
    simp [String.append_assoc]

/-- C9: `GetTransactionId` is `HashString` of the concatenation, in order, of each input's
`TxOutId` followed by its decimal `TxOutIndex`, then each output's `Address` followed by its
decimal `Amount`; so a transaction with the same outputs and the same input references
(whatever the signatures and the stored id) has the same id. -/
theorem GetTransactionId_preimage (transaction : Transaction) :
    GetTransactionId transaction =
        HashString
          (String.join (transaction.TxIns.map fun i => i.TxOutId ++ toString i.TxOutIndex)
            ++ String.join
              (transaction.TxOuts.map fun o => o.Address ++ toString o.Amount)) ∧
      ∀ other : Transaction,
        other.TxOuts = transaction.TxOuts →
        other.TxIns.map (fun i => (i.TxOutId, i.TxOutIndex))
          = transaction.TxIns.map (fun i => (i.TxOutId, i.TxOutIndex)) →
        GetTransactionId other = GetTransactionId transaction := by
  have hid : ∀ t : Transaction, GetTransactionId t =
      HashString
        (String.join (t.TxIns.map fun i => i.TxOutId ++ toString i.TxOutIndex)
          ++ String.join (t.TxOuts.map fun o => o.Address ++ toString o.Amount)) := by
    intro t
    unfold GetTransactionId
    simp only [foldl_append_eq_join, String.empty_append]
  refine ⟨hid transaction, ?_⟩
  intro other hout hin
  have hkeys : ∀ l : List TxIn, l.map (fun i => i.TxOutId ++ toString i.TxOutIndex)
      = (l.map (fun i => (i.TxOutId, i.TxOutIndex))).map (fun p => p.1 ++ toString p.2) := by
    intro l
    rw [List.map_map]
    rfl
  rw [hid other, hid transaction, hout, hkeys other.TxIns, hkeys transaction.TxIns, hin]

theorem GetTransactionId_preimage_witness :
    GetTransactionId
        { Id := "", TxIns := [{ TxOutId := "ab", TxOutIndex := 7, Signature := "3006" }],
          TxOuts := [{ Address := sampleMiner, Amount := 5 }] }
      = GetTransactionId
        { Id := "", TxIns := [{ TxOutId := "ab", TxOutIndex := 7, Signature := "" }],
          TxOuts := [{ Address := sampleMiner, Amount := 5 }] } :=
  (GetTransactionId_preimage
    { Id := "", TxIns := [{ TxOutId := "ab", TxOutIndex := 7, Signature := "" }],
      TxOuts := [{ Address := sampleMiner, Amount := 5 }] }).2
    { Id := "", TxIns := [{ TxOutId := "ab", TxOutIndex := 7, Signature := "3006" }],
      TxOuts := [{ Address := sampleMiner, Amount := 5 }] } rfl rfl

/-- The id pre-image on a concrete transaction: SHA-256 of `"ab7" ++ address ++ "5"`. -/
theorem GetTransactionId_example :
    GetTransactionId
        { Id := "", TxIns := [{ TxOutId := "ab", TxOutIndex := 7, Signature := "3006" }],
          TxOuts := [{ Address := sampleMiner, Amount := 5 }] }
      = HashString
        "ab702fbe9019062728e8fab7ac59b33d25c24ce9d393b49134f7a25da45a50f43faf95" := by
  decide!

/-! ## Transaction validation -/

theorem foldl_add64_eq (l : List Int) :
    ∀ acc : Int, InInt64 acc →
      l.foldl (fun total a => add64 total a) acc = wrap64 (acc + l.sum) := by
  induction l with
  | nil =>
    intro acc hacc
    simp [wrap64_of_inInt64 hacc]
  | cons a l ih =>
    intro acc _
    simp only [List.foldl_cons, List.sum_cons]
    rw [ih (add64 acc a) (wrap64_inInt64 _)]
    unfold add64
    rw [wrap64_add_wrap64, add_assoc]

theorem totalTxOutValues_eq (txOuts : List TxOut) :
    totalTxOutValues txOuts = wrap64 (txOuts.map fun o => o.Amount).sum := by
  unfold totalTxOutValues
  have h := foldl_add64_eq (txOuts.map fun o => o.Amount) 0 (by decide)
  rw [List.foldl_map] at h
  rw [h, zero_add]

theorem totalTxInValues_eq (txIns : List TxIn) (unspentTxOuts : List UnspentTxOut) :
    totalTxInValues txIns unspentTxOuts =
      wrap64 ((txIns.filterMap fun i => FindReferencedTxOut i unspentTxOuts).map
        fun e => e.Amount).sum := by
  unfold totalTxInValues
  have h := foldl_add64_eq
    ((txIns.filterMap fun i => FindReferencedTxOut i unspentTxOuts).map fun e => e.Amount) 0
    (by decide)
  rw [zero_add] at h
  rw [← h, List.foldl_map]
  clear h
  generalize (0 : Int) = acc
  induction txIns generalizing acc with
  | nil => rfl
  | cons i rest ih =>
    simp only [List.foldl_cons, List.filterMap_cons]
    rcases hf : FindReferencedTxOut i unspentTxOuts with _ | e
    · simp only [hf]
      exact ih acc
    · simp only [hf, List.foldl_cons]
      exact ih (add64 acc e.Amount)

theorem FindReferencedTxOut_some {txIn : TxIn} {unspentTxOuts : List UnspentTxOut}
    {e : UnspentTxOut} (h : FindReferencedTxOut txIn unspentTxOuts = some e) :
    e ∈ unspentTxOuts ∧ e.TxOutId = txIn.TxOutId ∧ e.TxOutIndex = txIn.TxOutIndex := by
  unfold FindReferencedTxOut at h
  have hp := List.find?_some h
  simp only [decide_eq_true_eq] at hp
  exact ⟨List.mem_of_find?_eq_some h, hp.1, hp.2⟩

theorem ValidateTxIn_eq_true_iff (verifyASN1 : VerifyASN1) (txIn : TxIn)
    (transaction : Transaction) (unspentTxOuts : List UnspentTxOut) :
    ValidateTxIn verifyASN1 txIn transaction unspentTxOuts = true ↔
      ∃ e, FindReferencedTxOut txIn unspentTxOuts = some e ∧
        ∃ publicKey, GetPublicECDSAKeyFromCompressedAddress e.Address = Except.ok publicKey ∧
          VerifyECDSASignature verifyASN1 publicKey transaction.Id txIn.Signature
            = Except.ok true := by
  unfold ValidateTxIn
  rcases hf : FindReferencedTxOut txIn unspentTxOuts with _ | e
  · simp
  · rcases hk : GetPublicECDSAKeyFromCompressedAddress e.Address with err | key
    · simp [hk]
    · rcases hv : VerifyECDSASignature verifyASN1 key transaction.Id txIn.Signature with err | b
      · simp only [hk, hv, Option.some.injEq, exists_eq_left', reduceCtorEq, false_iff]
        rintro ⟨key', hk', hv'⟩
        cases hk'
        rw [hv] at hv'
        cases hv'
      · simp only [hk, hv, Option.some.injEq, exists_eq_left']
        constructor
        · intro hb
          exact ⟨key, rfl, by rw [hv, hb]⟩
        · rintro ⟨key', hk', hv'⟩
          cases hk'
          rw [hv] at hv'
          cases hv'
          rfl

/-- C10, as stated, fails: the transaction with no input and the outputs `2 ^ 63 - 1`,
`2 ^ 63 - 1` and `2` has a matching id and no input to resolve or verify, and
`ValidateTransaction` returns true on it, against any list of unspent outputs; the sum of the
referenced amounts is 0 and the sum of the output amounts is `2 ^ 64`, which the `int64` total
of the code wraps to 0. `AddToTransactionPool` admits it on the start-up state. -/
theorem ValidateTransaction_overflow_counterexample :
    ValidateTransaction ecdsaVerifyASN1 overflowingOutputs [] = true ∧
      GetTransactionId overflowingOutputs = overflowingOutputs.Id ∧
      overflowingOutputs.TxIns = [] ∧
      ((overflowingOutputs.TxIns.filterMap fun i => FindReferencedTxOut i []).map
        fun e => e.Amount).sum = 0 ∧
      (overflowingOutputs.TxOuts.map fun o => o.Amount).sum = 2 ^ 64 ∧
      (AddToTransactionPool ecdsaVerifyASN1 initialState overflowingOutputs []).2.TransactionPool
        = [overflowingOutputs] := by
  decide!

/-- C10 (amended): `ValidateTransaction` returns true exactly when the id recomputes, every
input resolves through `FindReferencedTxOut` to an entry of the list with the same
`(TxOutId, TxOutIndex)`, that entry's address decompresses to a public key under which the
input's signature verifies against the transaction id, and the `int64` total of the referenced
entries' amounts equals the `int64` total of the output amounts, each total being the integer
sum reduced modulo `2 ^ 64` into the `int64` range, as the code accumulates it. -/
theorem ValidateTransaction_eq_true_iff (verifyASN1 : VerifyASN1) (transaction : Transaction)
    (unspentTxOuts : List UnspentTxOut) :
    ValidateTransaction verifyASN1 transaction unspentTxOuts = true ↔
      GetTransactionId transaction = transaction.Id ∧
      (∀ txIn ∈ transaction.TxIns,
        ∃ e, FindReferencedTxOut txIn unspentTxOuts = some e ∧ e ∈ unspentTxOuts ∧
          e.TxOutId = txIn.TxOutId ∧ e.TxOutIndex = txIn.TxOutIndex ∧
          ∃ publicKey, GetPublicECDSAKeyFromCompressedAddress e.Address = Except.ok publicKey ∧
            VerifyECDSASignature verifyASN1 publicKey transaction.Id txIn.Signature
              = Except.ok true) ∧
      wrap64 ((transaction.TxIns.filterMap fun i => FindReferencedTxOut i unspentTxOuts).map
          fun e => e.Amount).sum
        = wrap64 (transaction.TxOuts.map fun o => o.Amount).sum := by
  have hins : (transaction.TxIns.all fun txIn =>
        ValidateTxIn verifyASN1 txIn transaction unspentTxOuts) = true ↔
      ∀ txIn ∈ transaction.TxIns,
        ∃ e, FindReferencedTxOut txIn unspentTxOuts = some e ∧ e ∈ unspentTxOuts ∧
          e.TxOutId = txIn.TxOutId ∧ e.TxOutIndex = txIn.TxOutIndex ∧
          ∃ publicKey, GetPublicECDSAKeyFromCompressedAddress e.Address = Except.ok publicKey ∧
            VerifyECDSASignature verifyASN1 publicKey transaction.Id txIn.Signature
              = Except.ok true := by
    rw [List.all_eq_true]
    constructor
    · intro h txIn hmem
      obtain ⟨e, hf, hk⟩ := (ValidateTxIn_eq_true_iff _ _ _ _).mp (h txIn hmem)
      have hs := FindReferencedTxOut_some hf
      exact ⟨e, hf, hs.1, hs.2.1, hs.2.2, hk⟩
    · intro h txIn hmem
      obtain ⟨e, hf, _, _, _, hk⟩ := h txIn hmem
      exact (ValidateTxIn_eq_true_iff _ _ _ _).mpr ⟨e, hf, hk⟩
  rw [← hins, ← totalTxInValues_eq, ← totalTxOutValues_eq]
  unfold ValidateTransaction
  by_cases h1 : GetTransactionId transaction = transaction.Id
  · by_cases h2 : (transaction.TxIns.all fun txIn =>
        ValidateTxIn verifyASN1 txIn transaction unspentTxOuts) = true
    · by_cases h3 : totalTxInValues transaction.TxIns unspentTxOuts
          = totalTxOutValues transaction.TxOuts
      · simp [h1, h2, h3]
      · simp [h1, h2, h3]
    · simp [h1, h2]
  · simp [h1]

/-! ## The difficulty check on a 256-bit digest -/

theorem binaryValue_foldl (bits : List Char) :
    ∀ acc : Nat, bits.foldl (fun acc c => 2 * acc + (if c = '1' then 1 else 0)) acc
      = acc * 2 ^ bits.length + binaryValue bits := by
  unfold binaryValue
  induction bits with
  | nil => intro acc; simp
  | cons c rest ih =>
    intro acc
    simp only [List.foldl_cons, List.length_cons]
    rw [ih (2 * acc + _), ih (2 * 0 + _)]
    ring

theorem binaryValue_cons (c : Char) (rest : List Char) :
    binaryValue (c :: rest) = (if c = '1' then 1 else 0) * 2 ^ rest.length + binaryValue rest := by
  have h := binaryValue_foldl rest (2 * 0 + (if c = '1' then 1 else 0))
  unfold binaryValue at h ⊢
  simp only [List.foldl_cons]
  rw [h]
  simp

theorem binaryValue_append (xs ys : List Char) :
    binaryValue (xs ++ ys) = binaryValue xs * 2 ^ ys.length + binaryValue ys := by
  induction xs with
  | nil => simp [binaryValue]
  | cons c rest ih =>
    rw [List.cons_append, binaryValue_cons, binaryValue_cons, ih, List.length_append]
    ring

theorem binaryValue_lt (bits : List Char) : binaryValue bits < 2 ^ bits.length := by
  induction bits with
  | nil => simp [binaryValue]
  | cons c rest ih =>
    rw [binaryValue_cons, List.length_cons, pow_succ]
    split_ifs <;> omega

theorem SetBytes_cons (b : Nat) (bs : List Nat) :
    SetBytes (b :: bs) = b * 256 ^ bs.length + SetBytes bs := by
  have hgen : ∀ (l : List Nat) (acc : Nat),
      l.foldl (fun acc b => acc * 256 + b) acc
        = acc * 256 ^ l.length + l.foldl (fun acc b => acc * 256 + b) 0 := by
    intro l
    induction l with
    | nil => intro acc; simp
    | cons x xs ih =>
      intro acc
      simp only [List.foldl_cons, List.length_cons]
      rw [ih (acc * 256 + x), ih (0 * 256 + x)]
      ring
  unfold SetBytes
  simp only [List.foldl_cons]
  rw [hgen bs (0 * 256 + b)]
  simp

/-- The rendering `%08b` of a byte: eight binary digits whose value is the byte. -/
theorem fmtB08_byte : ∀ b, b < 256 →
    (fmtB08 b).length = 8 ∧ binaryValue (fmtB08 b) = b ∧
      (fmtB08 b).all (fun c => c == '0' || c == '1') = true := by
  decide!

theorem flatMap_fmtB08 (bytes : List Nat) (hb : ∀ b ∈ bytes, b < 256) :
    (bytes.flatMap fmtB08).length = 8 * bytes.length ∧
      binaryValue (bytes.flatMap fmtB08) = SetBytes bytes ∧
      ∀ c ∈ bytes.flatMap fmtB08, c = '0' ∨ c = '1' := by
  induction bytes with
  | nil => simp [binaryValue, SetBytes]
  | cons b rest ih =>
    obtain ⟨hlen, hval, hbin⟩ := ih (fun x hx => hb x (List.mem_cons_of_mem _ hx))
    obtain ⟨h8, hv, hall⟩ := fmtB08_byte b (hb b (List.mem_cons_self _ _))
    rw [List.flatMap_cons]
    refine ⟨?_, ?_, ?_⟩
    · rw [List.length_append, h8, hlen, List.length_cons]; ring
    · rw [binaryValue_append, hv, hval, hlen, SetBytes_cons, pow_mul]
      norm_num
    · intro c hc
      rcases List.mem_append.mp hc with h | h
      · have := List.all_eq_true.mp hall c h
        simpa using this
      · exact hbin c h

/-- A prefix of `k` zeros is the numeric bound `< 2 ^ (length - k)`. -/
theorem replicate_zero_isPrefixOf_iff (bits : List Char) (hbin : ∀ c ∈ bits, c = '0' ∨ c = '1') :
    ∀ k, k ≤ bits.length →
      ((List.replicate k '0').isPrefixOf bits = true ↔
        binaryValue bits < 2 ^ (bits.length - k)) := by
  induction bits with
  | nil =>
    intro k hk
    have : k = 0 := by simpa using hk
    subst this
    simp [binaryValue]
  | cons c rest ih =>
    intro k hk
    cases k with
    | zero =>
      simp only [List.replicate_zero, List.isPrefixOf_nil_left, true_iff, Nat.sub_zero]
      exact binaryValue_lt _
    | succ k =>
      have hk' : k ≤ rest.length := by simpa using hk
      have ih' := ih (fun x hx => hbin x (List.mem_cons_of_mem _ hx)) k hk'
      rw [List.replicate_succ, List.isPrefixOf_cons₂, binaryValue_cons, List.length_cons,
        Nat.succ_sub_succ]
      rcases hbin c (List.mem_cons_self _ _) with hc | hc
      · subst hc
        simp only [beq_self_eq_true, Bool.true_and]
        rw [ih']
        simp
      · subst hc
        have hle : 2 ^ (rest.length - k) ≤ 2 ^ rest.length :=
          Nat.pow_le_pow_right (by norm_num) (Nat.sub_le _ _)
        simp only [if_true, one_mul]
        constructor
        · intro h
          simp at h
        · intro h
          omega

/-- A prefix of `k` zeros read position by position. -/
theorem replicate_zero_isPrefixOf_iff_get (bits : List Char) :
    ∀ k, ((List.replicate k '0').isPrefixOf bits = true ↔
      ∀ i, i < k → bits[i]? = some '0') := by
  induction bits with
  | nil =>
    intro k
    cases k with
    | zero => simp
    | succ k =>
      simp only [List.replicate_succ, List.isPrefixOf, false_iff, reduceCtorEq]
      intro h
      have := h 0 (Nat.succ_pos _)
      simp at this
  | cons c rest ih =>
    intro k
    cases k with
    | zero => simp
    | succ k =>
      rw [List.replicate_succ, List.isPrefixOf_cons₂, Bool.and_eq_true, ih k]
      constructor
      · rintro ⟨hc, hrest⟩ i hi
        cases i with
        | zero =>
          have : '0' = c := by simpa using hc
          simp [← this]
        | succ i =>
          simpa using hrest i (by omega)
      · intro h
        refine ⟨?_, ?_⟩
        · have := h 0 (Nat.succ_pos _)
          simp only [List.getElem?_cons_zero, Option.some.injEq] at this
          simp [this]
        · intro i hi
          simpa using h (i + 1) (by omega)

theorem fromHexChar_hexDigits : ∀ c ∈ hexDigits, ∃ v, fromHexChar c = some v ∧ v < 16 := by
  decide

/-- Decoding an even number of lower-case hex digits succeeds and yields half as many bytes. -/
theorem hexDecodeList_hexDigits (n : Nat) :
    ∀ l : List Char, l.length = 2 * n → (∀ c ∈ l, c ∈ hexDigits) →
      (hexDecodeList l).2 = true ∧ (hexDecodeList l).1.length = n ∧
        ∀ b ∈ (hexDecodeList l).1, b < 256 := by
  induction n with
  | zero =>
    intro l hl _
    have : l = [] := List.length_eq_zero.mp (by simpa using hl)
    subst this
    simp [hexDecodeList]
  | succ n ih =>
    intro l hl hhex
    match l, hl, hhex with
    | p :: q :: rest, hl, hhex =>
      have hrest : rest.length = 2 * n := by
        simp only [List.length_cons] at hl
        omega
      obtain ⟨a, ha, ha16⟩ := fromHexChar_hexDigits p (hhex p (by simp))
      obtain ⟨b, hb, hb16⟩ := fromHexChar_hexDigits q (hhex q (by simp))
      obtain ⟨hok, hlen, hbytes⟩ := ih rest hrest (fun c hc => hhex c (by simp [hc]))
      unfold hexDecodeList
      simp only [ha, hb]
      refine ⟨hok, by simp [hlen], ?_⟩
      intro x hx
      rcases List.mem_cons.mp hx with hx | hx
      · subst hx; omega
      · exact hbytes x hx
    | [], hl, _ => simp at hl
    | [_], hl, _ =>
      simp only [List.length_cons, List.length_nil] at hl
      omega

theorem join_replicate_zero (k : Nat) :
    (String.join (List.replicate k "0")).toList = List.replicate k '0' := by
  have h := foldl_append_eq_join (fun s : String => s) (List.replicate k "0") ""
  simp only [List.map_id', String.empty_append] at h
  rw [← h]
  have hgen : ∀ (k : Nat) (acc : String),
      ((List.replicate k "0").foldl (fun b x => b ++ x) acc).toList
        = acc.toList ++ List.replicate k '0' := by
    intro k
    induction k with
    | zero => intro acc; simp
    | succ k ih =>
      intro acc
      rw [List.replicate_succ, List.foldl_cons, ih]
      simp only [String.toList, String.data_append]
      rw [List.append_assoc]
      rfl
  rw [hgen k ""]
  rfl

theorem HashMatchesDifficulty_eq (hash : String) (d : Int) (hd : 0 ≤ d) :
    HashMatchesDifficulty hash d =
      some ((List.replicate d.toNat '0').isPrefixOf (HexToBinary hash).toList) := by
  unfold HashMatchesDifficulty Repeat HasPrefix
  have hneg : ¬ d < 0 := by omega
  simp only [hneg, if_false, join_replicate_zero]

/-- C6: for a string `h` of 64 lower-case hex digits and a difficulty `0 ≤ d ≤ 256`, the binary
string of `h` has 256 digits, which are the binary expansion (most significant bit first) of `h`
read as an unsigned integer, and `HashMatchesDifficulty h d` is true exactly when the first `d`
of these digits are zero, that is exactly when that integer is below `2 ^ (256 - d)`.
Difficulty 0 accepts every string. -/
theorem HashMatchesDifficulty_iff_leading_zero_bits (h : String) (d : Int)
    (hlen : h.length = 64) (hhex : ∀ c ∈ h.toList, c ∈ hexDigits)
    (hd0 : 0 ≤ d) (hd256 : d ≤ 256) :
    ((HexToBinary h).length = 256 ∧
      (∀ c ∈ (HexToBinary h).toList, c = '0' ∨ c = '1') ∧
      binaryValue (HexToBinary h).toList = SetBytes (DecodeString h).1) ∧
    (HashMatchesDifficulty h d = some true ↔
      ∀ i : Nat, (i : Int) < d → (HexToBinary h).toList[i]? = some '0') ∧
    (HashMatchesDifficulty h d = some true ↔
      SetBytes (DecodeString h).1 < 2 ^ (256 - d.toNat)) ∧
    ∀ g : String, HashMatchesDifficulty g 0 = some true := by
  have hl : h.toList.length = 2 * 32 := hlen
  obtain ⟨_, hbytes, hlt⟩ := hexDecodeList_hexDigits 32 h.toList hl hhex
  obtain ⟨hbits, hval, hbin⟩ := flatMap_fmtB08 (hexDecodeList h.toList).1 hlt
  have hdata : (HexToBinary h).toList = (hexDecodeList h.toList).1.flatMap fmtB08 := rfl
  have hlen256 : (HexToBinary h).toList.length = 256 := by
    rw [hdata, hbits, hbytes]
  have hk : d.toNat ≤ (HexToBinary h).toList.length := by
    rw [hlen256]; omega
  refine ⟨⟨hlen256, by rw [hdata]; exact hbin, ?_⟩, ?_, ?_, ?_⟩
  · rw [hdata, hval]
    rfl
  · rw [HashMatchesDifficulty_eq h d hd0, Option.some.injEq,
      replicate_zero_isPrefixOf_iff_get]
    constructor
    · intro hz i hi
      exact hz i (by omega)
    · intro hz i hi
      exact hz i (by omega)
  · rw [HashMatchesDifficulty_eq h d hd0, Option.some.injEq,
      replicate_zero_isPrefixOf_iff _ (by rw [hdata]; exact hbin) _ hk, hlen256, hdata, hval]
    rfl
  · intro g
    rw [HashMatchesDifficulty_eq g 0 (le_refl _)]
    simp

theorem HashMatchesDifficulty_iff_leading_zero_bits_witness :
    (("00ff00000000000000000000000000000000000000000000000000000000abcd".length = 64 ∧
        (∀ c ∈ "00ff00000000000000000000000000000000000000000000000000000000abcd".toList,
          c ∈ hexDigits)) ∧ (0 : Int) ≤ 8 ∧ (8 : Int) ≤ 256) ∧
      HashMatchesDifficulty
        "00ff00000000000000000000000000000000000000000000000000000000abcd" 8 = some true ∧
      SetBytes (DecodeString
        "00ff00000000000000000000000000000000000000000000000000000000abcd").1 < 2 ^ (256 - 8) :=
  ⟨⟨⟨by decide, by decide⟩, by decide, by decide⟩, by decide!,
    ((HashMatchesDifficulty_iff_leading_zero_bits
      "00ff00000000000000000000000000000000000000000000000000000000abcd" 8
      (by decide) (by decide) (by decide) (by decide)).2.2.1).mp (by decide!)⟩

/-! ## Coinbase and block transactions -/

/-- What `ValidateCoinBaseTx` checks: the id, exactly one input carrying the block height, and
the amount of the first output; the number of outputs is not looked at. -/
theorem ValidateCoinBaseTx_eq_some_true_iff (transaction : Transaction) (blockIndex : Int) :
    ValidateCoinBaseTx transaction blockIndex = some true ↔
      GetTransactionId transaction = transaction.Id ∧
      (∃ txIn, transaction.TxIns = [txIn] ∧ txIn.TxOutIndex = blockIndex) ∧
      ∃ txOut rest, transaction.TxOuts = txOut :: rest ∧ txOut.Amount = CoinBaseAmount := by
  unfold ValidateCoinBaseTx
  by_cases h1 : GetTransactionId transaction = transaction.Id
  swap
  · simp [h1]
  rcases hins : transaction.TxIns with _ | ⟨txIn, _ | ⟨txIn2, more⟩⟩
  · simp [h1]
  · by_cases h2 : txIn.TxOutIndex = blockIndex
    · rcases houts : transaction.TxOuts with _ | ⟨txOut, rest⟩
      · simp [h1, h2]
      · by_cases h3 : txOut.Amount = CoinBaseAmount
        · simp [h1, h2, h3]
        · simp [h1, h2, h3]
    · simp [h1, h2]
  · simp [h1]

/-- C11: the coinbase transaction for height 1 with the two outputs 100 and 900 has a matching
id and one input of index 1; `ValidateCoinBaseTx` returns true on it although it does not have
exactly one output. -/
theorem ValidateCoinBaseTx_two_outputs :
    GetTransactionId twoOutputCoinbase = twoOutputCoinbase.Id ∧
      twoOutputCoinbase.TxIns.length = 1 ∧ twoOutputCoinbase.TxOuts.length = 2 ∧
      ValidateCoinBaseTx twoOutputCoinbase 1 = some true := by
  decide!

/-- C12: `ValidateBlockTransactions` stops with a run-time error on the empty list
(`transactions[0]`), and `ValidateCoinBaseTx` and `ValidateBlockTransactions` stop with one on a
coinbase transaction without outputs (`transaction.TxOuts[0]`), whatever the unspent outputs
and the signature check. -/
theorem ValidateBlockTransactions_run_time_error :
    (∀ (verifyASN1 : VerifyASN1) (unspentTxOuts : List UnspentTxOut) (blockIndex : Int),
        ValidateBlockTransactions verifyASN1 [] unspentTxOuts blockIndex = none) ∧
      ValidateCoinBaseTx noOutputCoinbase 1 = none ∧
      ∀ (verifyASN1 : VerifyASN1) (unspentTxOuts : List UnspentTxOut),
        ValidateBlockTransactions verifyASN1 [noOutputCoinbase] unspentTxOuts 1 = none := by
  have h : ValidateCoinBaseTx noOutputCoinbase 1 = none := by decide!
  refine ⟨fun _ _ _ => rfl, h, ?_⟩
  intro verifyASN1 unspentTxOuts
  unfold ValidateBlockTransactions
  simp only [h]

/-! ## Duplicate inputs -/

theorem HasDuplicatesFrom_eq_true_iff (txIns : List TxIn) :
    ∀ seen : List String, HasDuplicatesFrom txIns seen = true ↔
      (∃ txIn ∈ txIns, txIn.TxOutId ++ toString txIn.TxOutIndex ∈ seen) ∨
        ¬ (txIns.map fun txIn => txIn.TxOutId ++ toString txIn.TxOutIndex).Nodup := by
  induction txIns with
  | nil => intro seen; simp [HasDuplicatesFrom]
  | cons txIn rest ih =>
    intro seen
    unfold HasDuplicatesFrom
    by_cases hmem : txIn.TxOutId ++ toString txIn.TxOutIndex ∈ seen
    · simp only [hmem, if_true, true_iff]
      exact Or.inl ⟨txIn, List.mem_cons_self _ _, hmem⟩
    · simp only [hmem, if_false, ih, List.mem_cons, List.map_cons, List.nodup_cons, not_and_or,
        not_not, List.mem_map]
      constructor
      · rintro (⟨x, hx, hk | hk⟩ | h)
        · exact Or.inr (Or.inl ⟨x, hx, hk⟩)
        · exact Or.inl ⟨x, Or.inr hx, hk⟩
        · exact Or.inr (Or.inr h)
      · rintro (⟨x, hx | hx, hk⟩ | ⟨x, hx, hk⟩ | h)
        · subst hx; exact absurd hk hmem
        · exact Or.inl ⟨x, hx, Or.inr hk⟩
        · exact Or.inl ⟨x, hx, Or.inl hk⟩
        · exact Or.inr h

/-- What `HasDuplicates` computes: whether two inputs have the same map key, the string
`TxOutId` followed by the decimal `TxOutIndex`. -/
theorem HasDuplicates_eq_true_iff (txIns : List TxIn) :
    HasDuplicates txIns = true ↔
      ¬ (txIns.map fun txIn => txIn.TxOutId ++ toString txIn.TxOutIndex).Nodup := by
  unfold HasDuplicates
  rw [HasDuplicatesFrom_eq_true_iff]
  simp

/-- C13: the inputs `("a1", 2)` and `("a", 12)` reference different outputs, yet both have the
key `"a12"` and `HasDuplicates` returns true; a block of height 2 whose valid coinbase
transaction has the first input and whose second transaction has the other is rejected on the
uniqueness rule, whatever the unspent outputs and the signature check. -/
theorem HasDuplicates_key_collision :
    (collidingTxIns.map fun txIn => (txIn.TxOutId, txIn.TxOutIndex)).Nodup ∧
      HasDuplicates collidingTxIns = true ∧
      (collidingTransactions.flatMap fun tx => tx.TxIns) = collidingTxIns ∧
      ValidateCoinBaseTx (collidingTransactions.headD GenesisTransaction) 2 = some true ∧
      ∀ (verifyASN1 : VerifyASN1) (unspentTxOuts : List UnspentTxOut),
        ValidateBlockTransactions verifyASN1 collidingTransactions unspentTxOuts 2
          = some false := by
  have hcb : ValidateCoinBaseTx (collidingTransactions.headD GenesisTransaction) 2 = some true := by
    decide!
  have hdup : HasDuplicates collidingTxIns = true := by decide!
  refine ⟨by decide, hdup, rfl, hcb, ?_⟩
  intro verifyASN1 unspentTxOuts
  have hflat : (collidingTransactions.flatMap fun tx => tx.TxIns) = collidingTxIns := rfl
  unfold ValidateBlockTransactions
  simp only [collidingTransactions, List.headD_cons] at hcb ⊢
  simp only [hcb]
  have hflat2 := hflat
  simp only [collidingTransactions] at hflat2
  simp only [hflat2, hdup, if_true]

/-! ## Output amounts -/

theorem ValidateTransaction_totals {verifyASN1 : VerifyASN1} {transaction : Transaction}
    {unspentTxOuts : List UnspentTxOut}
    (h : ValidateTransaction verifyASN1 transaction unspentTxOuts = true) :
    totalTxInValues transaction.TxIns unspentTxOuts = totalTxOutValues transaction.TxOuts := by
  unfold ValidateTransaction at h
  split_ifs at h with h1 h2 h3
  exact not_not.mp h3

/-- C14, as stated, fails: the transaction with no input and the outputs 5 and -5 has a
matching id and equal totals (0 and 0), so `ValidateTransaction` returns true on it, against
any list of unspent outputs (no signature is checked); its second output is negative. -/
theorem ValidateTransaction_negative_output_counterexample :
    ValidateTransaction rejectAll negativeOutputTx [] = true ∧
      ∃ txOut ∈ negativeOutputTx.TxOuts, txOut.Amount < 0 := by
  refine ⟨by decide!, ⟨{ Address := sampleMiner, Amount := -5 }, by decide, by decide⟩⟩

/-- C14 (amended): a transaction that `ValidateTransaction` accepts has output amounts whose
`int64` total equals the `int64` total of the referenced entries' amounts; a single output is
therefore non-negative when that total is, while nothing bounds the sign of one output among
several. -/
theorem ValidateTransaction_output_total (verifyASN1 : VerifyASN1) (transaction : Transaction)
    (unspentTxOuts : List UnspentTxOut)
    (h : ValidateTransaction verifyASN1 transaction unspentTxOuts = true) :
    wrap64 (transaction.TxOuts.map fun o => o.Amount).sum
        = wrap64 ((transaction.TxIns.filterMap
            fun i => FindReferencedTxOut i unspentTxOuts).map fun e => e.Amount).sum ∧
      ∀ txOut : TxOut, transaction.TxOuts = [txOut] → InInt64 txOut.Amount →
        0 ≤ wrap64 ((transaction.TxIns.filterMap
            fun i => FindReferencedTxOut i unspentTxOuts).map fun e => e.Amount).sum →
        0 ≤ txOut.Amount := by
  have htot := ValidateTransaction_totals h
  rw [totalTxInValues_eq, totalTxOutValues_eq] at htot
  refine ⟨htot.symm, ?_⟩
  intro txOut hone hty hpos
  rw [htot, hone] at hpos
  simp only [List.map_cons, List.map_nil, List.sum_cons, List.sum_nil, add_zero] at hpos
  rw [wrap64_of_inInt64 hty] at hpos
  exact hpos

theorem ValidateTransaction_output_total_witness :
    ValidateTransaction rejectAll negativeOutputTx [] = true ∧
      wrap64 (negativeOutputTx.TxOuts.map fun o => o.Amount).sum
        = wrap64 ((negativeOutputTx.TxIns.filterMap
            fun i => FindReferencedTxOut i []).map fun e => e.Amount).sum :=
  ⟨by decide!,
    (ValidateTransaction_output_total rejectAll negativeOutputTx [] (by decide!)).1⟩

/-! ## The ledger of the genesis block -/

/-- C16: on the initial chain `[GenesisBlock]` the chain has length 1, `GetAllUnspentTxOuts`
returns exactly the entry of the genesis output (index 0, amount 100), and the balance of its
address, computed from `GetUnspentTxOutsOfAddress`, is 100. -/
theorem genesis_only_ledger :
    initialState.BlockChain = [GenesisBlock] ∧ initialState.BlockChain.length = 1 ∧
      GetAllUnspentTxOuts initialState.BlockChain =
        some [{ TxOutId := "66ff05e7c66386297634cae4bd324e93be1b2ede6d4599e1de82361b42dc1807",
                TxOutIndex := 0,
                Address := "02fbe9019062728e8fab7ac59b33d25c24ce9d393b49134f7a25da45a50f43faf9",
                Amount := 100 }] ∧
      (GetUnspentTxOutsOfAddress initialState.BlockChain
          "02fbe9019062728e8fab7ac59b33d25c24ce9d393b49134f7a25da45a50f43faf9").map
        GetBalanceOfUnspentTxOuts = some 100 := by
  decide!

/-! ## Admission to the pool -/

theorem ContainsTxIn_eq_true_iff (txPoolIns : List TxIn) (txIn : TxIn) :
    ContainsTxIn txPoolIns txIn = true ↔
      ∃ j ∈ txPoolIns, j.TxOutId = txIn.TxOutId ∧ j.TxOutIndex = txIn.TxOutIndex := by
  unfold ContainsTxIn
  simp only [List.any_eq_true, decide_eq_true_eq]
  constructor
  · rintro ⟨j, hj, h1, h2⟩
    exact ⟨j, hj, h2, h1⟩
  · rintro ⟨j, hj, h1, h2⟩
    exact ⟨j, hj, h2, h1⟩

theorem IsValidTxForPool_eq_true_iff (transaction : Transaction) (pool : List Transaction) :
    IsValidTxForPool transaction pool = true ↔
      ∀ i ∈ transaction.TxIns, ∀ p ∈ pool, ∀ j ∈ p.TxIns,
        ¬ (j.TxOutId = i.TxOutId ∧ j.TxOutIndex = i.TxOutIndex) := by
  unfold IsValidTxForPool GetTxPoolIns
  simp only [List.all_eq_true, Bool.not_eq_true', ← Bool.not_eq_true, ContainsTxIn_eq_true_iff,
    List.mem_flatMap]
  constructor
  · intro h i hi p hp j hj hsame
    exact h i hi ⟨j, ⟨p, hp, hj⟩, hsame⟩
  · rintro h i hi ⟨j, ⟨p, hp, hj⟩, hsame⟩
    exact h i hi p hp j hj hsame

/-- C19: `AddToTransactionPool` returns no error and leaves the pool equal to the old pool with
the transaction appended exactly when `ValidateTransaction` is true and no input of the
transaction has the `(TxOutId, TxOutIndex)` of an input of a pool entry; otherwise it returns
an error and the pool is unchanged. So on a pool of one entry, a transaction that shares an
input reference with that entry is rejected and the pool keeps its size 1. -/
theorem AddToTransactionPool_admits_iff (verifyASN1 : VerifyASN1) (s : State)
    (transaction : Transaction) (unspentTxOuts : List UnspentTxOut) :
    (((AddToTransactionPool verifyASN1 s transaction unspentTxOuts).1 = true ∧
        (AddToTransactionPool verifyASN1 s transaction unspentTxOuts).2.TransactionPool
          = s.TransactionPool ++ [transaction]) ↔
      (ValidateTransaction verifyASN1 transaction unspentTxOuts = true ∧
        ∀ i ∈ transaction.TxIns, ∀ p ∈ s.TransactionPool, ∀ j ∈ p.TxIns,
          ¬ (j.TxOutId = i.TxOutId ∧ j.TxOutIndex = i.TxOutIndex))) ∧
    (¬ (ValidateTransaction verifyASN1 transaction unspentTxOuts = true ∧
        ∀ i ∈ transaction.TxIns, ∀ p ∈ s.TransactionPool, ∀ j ∈ p.TxIns,
          ¬ (j.TxOutId = i.TxOutId ∧ j.TxOutIndex = i.TxOutIndex)) →
      (AddToTransactionPool verifyASN1 s transaction unspentTxOuts).1 = false ∧
        (AddToTransactionPool verifyASN1 s transaction unspentTxOuts).2.TransactionPool
          = s.TransactionPool) ∧
    (∀ first : Transaction, s.TransactionPool = [first] →
      (∃ i ∈ transaction.TxIns, ∃ j ∈ first.TxIns,
        j.TxOutId = i.TxOutId ∧ j.TxOutIndex = i.TxOutIndex) →
      (AddToTransactionPool verifyASN1 s transaction unspentTxOuts).1 = false ∧
        (AddToTransactionPool verifyASN1 s transaction unspentTxOuts).2.TransactionPool.length
          = 1) := by
  have hpool := IsValidTxForPool_eq_true_iff transaction s.TransactionPool
  have hreject : ¬ (ValidateTransaction verifyASN1 transaction unspentTxOuts = true ∧
        ∀ i ∈ transaction.TxIns, ∀ p ∈ s.TransactionPool, ∀ j ∈ p.TxIns,
          ¬ (j.TxOutId = i.TxOutId ∧ j.TxOutIndex = i.TxOutIndex)) →
      (AddToTransactionPool verifyASN1 s transaction unspentTxOuts).1 = false ∧
        (AddToTransactionPool verifyASN1 s transaction unspentTxOuts).2.TransactionPool
          = s.TransactionPool := by
    intro hnot
    unfold AddToTransactionPool
    by_cases hv : ValidateTransaction verifyASN1 transaction unspentTxOuts = true
    · have hp : IsValidTxForPool transaction s.TransactionPool = false := by
        cases hb : IsValidTxForPool transaction s.TransactionPool
        · rfl
        · exact absurd ⟨hv, hpool.mp hb⟩ hnot
      simp [hv, hp]
    · simp [hv]
  refine ⟨?_, hreject, ?_⟩
  · constructor
    · intro hadm
      by_contra hnot
      have h := hreject hnot
      rw [h.1] at hadm
      exact absurd hadm.1 (by decide)
    · rintro ⟨hv, hfree⟩
      have hp := hpool.mpr hfree
      unfold AddToTransactionPool
      simp [hv, hp]
  · intro first hfirst ⟨i, hi, j, hj, hsame⟩
    have h := hreject (fun hc => hc.2 i hi first (by rw [hfirst]; exact List.mem_singleton_self _)
      j hj hsame)
    refine ⟨h.1, ?_⟩
    rw [h.2, hfirst]
    rfl

/-! ## The signed payment, run through the engine -/

/-- The block of height 1 is appended to the genesis block by a call that returns true. -/
theorem aliceChain_reachable :
    AddBlockToChain ecdsaVerifyASN1 1700000001 initialState aliceBlock
      = (some true, { BlockChain := aliceChain, TransactionPool := [] }) := by
  decide!

/-- The block of height 2, with the signed payment, is appended by a call that returns true. -/
theorem paidChain_reachable :
    AddBlockToChain ecdsaVerifyASN1 1700000002
        { BlockChain := aliceChain, TransactionPool := [] } paymentBlock
      = (some true, { BlockChain := paidChain, TransactionPool := [] }) := by
  decide!

theorem aliceChain_ledger : GetAllUnspentTxOuts aliceChain = some aliceLedger := by
  decide!

theorem paidChain_ledger : GetAllUnspentTxOuts paidChain = some paidLedger := by
  decide!

/-- The payment is valid on the ledger of `aliceChain`: its signature verifies under the key of
the output it spends. -/
theorem splitPayment_valid :
    ValidateTransaction ecdsaVerifyASN1 splitPayment aliceLedger = true := by
  decide!

theorem conflictingPayment_valid :
    ValidateTransaction ecdsaVerifyASN1 conflictingPayment aliceLedger = true := by
  decide!

/-- C15: on the chain of the genesis block and the block of height 1 (appended by a call that
returns true; every transaction has one input) `GetAllUnspentTxOuts` lists the output of the
coinbase transaction under `TxOutIndex = 1`, the `TxOutIndex` of the first input, where the
canonical fold lists it under its position 0. -/
theorem GetAllUnspentTxOuts_not_canonical :
    AddBlockToChain ecdsaVerifyASN1 1700000001 initialState aliceBlock
        = (some true, { BlockChain := aliceChain, TransactionPool := [] }) ∧
      (∀ block ∈ aliceChain, ∀ tx ∈ block.Data, tx.TxIns.length = 1) ∧
      GetAllUnspentTxOuts aliceChain =
        some [{ TxOutId := GenesisTransaction.Id, TxOutIndex := 0,
                Address := sampleMiner, Amount := 100 },
              { TxOutId := aliceCoinbase.Id, TxOutIndex := 1,
                Address := aliceAddress, Amount := 100 }] ∧
      canonicalUnspentTxOuts aliceChain =
        [{ TxOutId := GenesisTransaction.Id, TxOutIndex := 0,
           Address := sampleMiner, Amount := 100 },
         { TxOutId := aliceCoinbase.Id, TxOutIndex := 0,
           Address := aliceAddress, Amount := 100 }] :=
  ⟨aliceChain_reachable, by decide, aliceChain_ledger, by decide!⟩

/-- C17: on the chain built from the genesis block by two calls that return true, the second
appending a block with a signed payment of two outputs, `GetAllUnspentTxOuts` holds two entries
with the same `(TxOutId, TxOutIndex)`: both outputs of the payment under the `TxOutIndex` of its
first input. -/
theorem GetAllUnspentTxOuts_duplicate_reference :
    (AddBlockToChain ecdsaVerifyASN1 1700000001 initialState aliceBlock
        = (some true, { BlockChain := aliceChain, TransactionPool := [] }) ∧
      AddBlockToChain ecdsaVerifyASN1 1700000002
          { BlockChain := aliceChain, TransactionPool := [] } paymentBlock
        = (some true, { BlockChain := paidChain, TransactionPool := [] })) ∧
      GetAllUnspentTxOuts paidChain = some paidLedger ∧
      paidLedger.map (fun e => (e.TxOutId, e.TxOutIndex, e.Amount)) =
        [(GenesisTransaction.Id, 0, 100), (aliceCoinbase.Id, 1, 100),
         (secondCoinbase.Id, 2, 100), (splitPayment.Id, 1, 60), (splitPayment.Id, 1, 40)] ∧
      ¬ (paidLedger.map fun e => (e.TxOutId, e.TxOutIndex)).Nodup :=
  ⟨⟨aliceChain_reachable, paidChain_reachable⟩, paidChain_ledger, by decide, by decide⟩

/-- C18: on the same chain the circulating supply `Status` reports is 400, while the coinbase
transactions of the three blocks pay 100 each, 300 in all: the output of 100 that the payment
spends is still listed, next to the 60 and 40 it pays. -/
theorem Circulation_exceeds_coinbase_total :
    (AddBlockToChain ecdsaVerifyASN1 1700000001 initialState aliceBlock
        = (some true, { BlockChain := aliceChain, TransactionPool := [] }) ∧
      AddBlockToChain ecdsaVerifyASN1 1700000002
          { BlockChain := aliceChain, TransactionPool := [] } paymentBlock
        = (some true, { BlockChain := paidChain, TransactionPool := [] })) ∧
      Circulation paidChain = some 400 ∧
      (paidChain.map fun block =>
          ((block.Data.head?.map fun tx => (tx.TxOuts.map fun o => o.Amount).sum).getD 0))
        = [100, 100, 100] ∧
      (∃ spent ∈ paidLedger, spent.TxOutId = aliceCoinbase.Id ∧ spent.Amount = 100) :=
  ⟨⟨aliceChain_reachable, paidChain_reachable⟩,
    by unfold Circulation; rw [paidChain_ledger]; decide,
    by decide,
    ⟨{ TxOutId := aliceCoinbase.Id, TxOutIndex := 1, Address := aliceAddress, Amount := 100 },
      by decide, rfl, rfl⟩⟩

/-- The first admission of the double-spend scenario: on `aliceChain` with an empty pool the
payment is admitted against the ledger of the chain. -/
theorem splitPayment_admitted :
    AddToTransactionPool ecdsaVerifyASN1 { BlockChain := aliceChain, TransactionPool := [] }
        splitPayment aliceLedger
      = (true, poolWithPayment) := by
  decide!

/-- The double-spend scenario: with `splitPayment` in the pool, a second valid payment that
spends the same output is rejected and the pool keeps its one entry. -/
theorem AddToTransactionPool_admits_iff_witness :
    ValidateTransaction ecdsaVerifyASN1 conflictingPayment aliceLedger = true ∧
      (AddToTransactionPool ecdsaVerifyASN1 poolWithPayment conflictingPayment aliceLedger).1
          = false ∧
      (AddToTransactionPool ecdsaVerifyASN1 poolWithPayment conflictingPayment
          aliceLedger).2.TransactionPool.length = 1 :=
  ⟨conflictingPayment_valid,
    (AddToTransactionPool_admits_iff ecdsaVerifyASN1 poolWithPayment conflictingPayment
      aliceLedger).2.2 splitPayment rfl
      ⟨_, List.mem_singleton_self _, _, List.mem_singleton_self _, rfl, rfl⟩⟩

/-! ## The send-transaction handler -/

/-- C20: on the start-up state, a submission of a signed payment together with a made-up
unspent output is admitted to the pool, although the payment does not validate against
`GetAllUnspentTxOuts()` of the chain, which holds the genesis output only. The same payment in
a block that passes `isValidBlock` is refused by `AddBlockToChain`, which validates against the
ledger of the chain. -/
theorem SendTransaction_admits_forged_payment :
    (SendTransaction ecdsaVerifyASN1 initialState forgedRequest).2.TransactionPool
        = [forgedPayment] ∧
      (GetAllUnspentTxOuts initialState.BlockChain).map
          (fun unspent => (unspent.length,
            ValidateTransaction ecdsaVerifyASN1 forgedPayment unspent))
        = some (1, false) ∧
      isValidBlock 1700000001 forgedBlock GenesisBlock = some true ∧
      AddBlockToChain ecdsaVerifyASN1 1700000001 initialState forgedBlock
        = (some false, initialState) := by
  decide!

/-- The decision of the handler: a submission changes the pool only by appending its
transaction, and only if the transaction validates (`ValidateTransaction`) against the list of
unspent outputs sent along in the submission and shares no input reference with a pool entry;
the chain of the engine state is not read. -/
theorem SendTransaction_admits_only_if (verifyASN1 : VerifyASN1) (s : State)
    (params : SendTransactionStruct) :
    ((SendTransaction verifyASN1 s params).2.TransactionPool ≠ s.TransactionPool →
      ValidateTransaction verifyASN1 params.Transaction params.UnspentTxOuts = true ∧
        (∀ i ∈ params.Transaction.TxIns, ∀ p ∈ s.TransactionPool, ∀ j ∈ p.TxIns,
          ¬ (j.TxOutId = i.TxOutId ∧ j.TxOutIndex = i.TxOutIndex)) ∧
        (SendTransaction verifyASN1 s params).2.TransactionPool
          = s.TransactionPool ++ [params.Transaction]) ∧
    (SendTransaction verifyASN1 s params).2.BlockChain = s.BlockChain ∧
    ∀ other : State, other.TransactionPool = s.TransactionPool →
      (SendTransaction verifyASN1 other params).2.TransactionPool
        = (SendTransaction verifyASN1 s params).2.TransactionPool := by
  have hstate : (SendTransaction verifyASN1 s params).2
      = (AddToTransactionPool verifyASN1 s params.Transaction params.UnspentTxOuts).2 := rfl
  have hpool := IsValidTxForPool_eq_true_iff params.Transaction s.TransactionPool
  have hcases : ∀ t : State,
      (AddToTransactionPool verifyASN1 t params.Transaction params.UnspentTxOuts).2 =
        if ValidateTransaction verifyASN1 params.Transaction params.UnspentTxOuts = true ∧
            IsValidTxForPool params.Transaction t.TransactionPool = true
        then { t with TransactionPool := t.TransactionPool ++ [params.Transaction] }
        else t := by
    intro t
    unfold AddToTransactionPool
    by_cases hv : ValidateTransaction verifyASN1 params.Transaction params.UnspentTxOuts = true
    · by_cases hp : IsValidTxForPool params.Transaction t.TransactionPool = true
      · simp [hv, hp]
      · simp [hv, hp]
    · simp [hv]
  refine ⟨?_, ?_, ?_⟩
  · intro hchange
    rw [hstate, hcases s] at hchange ⊢
    split_ifs at hchange ⊢ with hc
    · exact ⟨hc.1, hpool.mp hc.2, rfl⟩
    · exact absurd rfl hchange
  · rw [hstate, hcases s]
    split_ifs <;> rfl
  · intro other hsame
    have hother : (SendTransaction verifyASN1 other params).2
        = (AddToTransactionPool verifyASN1 other params.Transaction params.UnspentTxOuts).2 :=
      rfl
    rw [hstate, hother, hcases s, hcases other, hsame]
    split_ifs
    · simp [hsame]
    · exact hsame

theorem SendTransaction_admits_only_if_witness :
    (SendTransaction ecdsaVerifyASN1 initialState forgedRequest).2.TransactionPool
        ≠ initialState.TransactionPool ∧
      ValidateTransaction ecdsaVerifyASN1 forgedRequest.Transaction forgedRequest.UnspentTxOuts
        = true :=
  ⟨by decide!,
    ((SendTransaction_admits_only_if ecdsaVerifyASN1 initialState forgedRequest).1
      (by decide!)).1⟩

/-! ## The pool under sequences of calls -/

/-- The state `AddToTransactionPool` leaves: the old one, or the old one with the transaction
appended when it is valid and free of conflicts with the pool. -/
theorem AddToTransactionPool_state (verifyASN1 : VerifyASN1) (s : State)
    (transaction : Transaction) (unspentTxOuts : List UnspentTxOut) :
    (AddToTransactionPool verifyASN1 s transaction unspentTxOuts).2 = s ∨
      (IsValidTxForPool transaction s.TransactionPool = true ∧
        (AddToTransactionPool verifyASN1 s transaction unspentTxOuts).2
          = { s with TransactionPool := s.TransactionPool ++ [transaction] }) := by
  unfold AddToTransactionPool
  by_cases hv : ValidateTransaction verifyASN1 transaction unspentTxOuts = true
  · by_cases hp : IsValidTxForPool transaction s.TransactionPool = true
    · right
      simp [hv, hp]
    · left
      simp [hv, hp]
  · left
    simp [hv]

theorem UpdateTransactionPool_eq (s : State) (unspentTxOuts : List UnspentTxOut)
    (h : GetAllUnspentTxOuts s.BlockChain = some unspentTxOuts) :
    UpdateTransactionPool s =
      some { s with
        TransactionPool := s.TransactionPool.filter fun tx => !HasTxIn tx unspentTxOuts } := by
  unfold UpdateTransactionPool
  rw [h]

theorem HasTxIn_eq_false_iff (transaction : Transaction) (unspentTxOuts : List UnspentTxOut) :
    (!HasTxIn transaction unspentTxOuts) = true ↔
      ∀ e ∈ unspentTxOuts, e.TxOutId ≠ transaction.Id := by
  unfold HasTxIn
  simp

/-- Inputs of two different pool entries never reference the same output: the part of the
pool invariant that `IsValidTxForPool` maintains, on any chain and for any signature check. -/
theorem runPoolCalls_cross_entries (verifyASN1 : VerifyASN1) (calls : List PoolCall) :
    ∀ s : State,
      s.TransactionPool.Pairwise
        (fun p q => ∀ i ∈ p.TxIns, ∀ j ∈ q.TxIns,
          ¬ (i.TxOutId = j.TxOutId ∧ i.TxOutIndex = j.TxOutIndex)) →
      (runPoolCalls verifyASN1 s calls).TransactionPool.Pairwise
        (fun p q => ∀ i ∈ p.TxIns, ∀ j ∈ q.TxIns,
          ¬ (i.TxOutId = j.TxOutId ∧ i.TxOutIndex = j.TxOutIndex)) := by
  induction calls with
  | nil => intro s hs; exact hs
  | cons call rest ih =>
    intro s hs
    cases call with
    | add transaction unspentTxOuts =>
      show (runPoolCalls verifyASN1
        (AddToTransactionPool verifyASN1 s transaction unspentTxOuts).2 rest).TransactionPool.Pairwise
          _
      apply ih
      rcases AddToTransactionPool_state verifyASN1 s transaction unspentTxOuts with h | ⟨hp, h⟩
      · rw [h]; exact hs
      · rw [h]
        have hfree := (IsValidTxForPool_eq_true_iff transaction s.TransactionPool).mp hp
        show (s.TransactionPool ++ [transaction]).Pairwise _
        rw [List.pairwise_append]
        refine ⟨hs, List.pairwise_singleton _ _, ?_⟩
        intro p hpmem q hq i hi j hj hsame
        have hq' : q = transaction := by simpa using hq
        subst hq'
        exact hfree j hj p hpmem i hi ⟨hsame.1, hsame.2⟩
    | update =>
      show (runPoolCalls verifyASN1 ((UpdateTransactionPool s).getD s) rest).TransactionPool.Pairwise
        _
      apply ih
      rcases hu : GetAllUnspentTxOuts s.BlockChain with _ | u
      · have : UpdateTransactionPool s = none := by
          unfold UpdateTransactionPool
          rw [hu]
        rw [this]
        exact hs
      · rw [UpdateTransactionPool_eq s u hu]
        exact List.Pairwise.filter _ hs

/-- C21: starting from the empty pool, one `AddToTransactionPool` call admits a signed payment
whose two inputs both name the output `(aliceCoinbase.Id, 1)`: the payment is valid against the
ledger of the chain (each input resolves and verifies, the totals are 200 and 200) and the pool
check compares its inputs with those of other entries only. The pool then holds two inputs, in
one entry, that reference the same output. -/
theorem pool_entry_with_repeated_input :
    ValidateTransaction ecdsaVerifyASN1 doubleInputPayment aliceLedger = true ∧
      (runPoolCalls ecdsaVerifyASN1 { BlockChain := aliceChain, TransactionPool := [] }
          [PoolCall.add doubleInputPayment aliceLedger]).TransactionPool
        = [doubleInputPayment] ∧
      (GetTxPoolIns [doubleInputPayment]).map (fun i => (i.TxOutId, i.TxOutIndex))
        = [(aliceCoinbase.Id, 1), (aliceCoinbase.Id, 1)] ∧
      HasDuplicates (GetTxPoolIns [doubleInputPayment]) = true := by
  decide!

/-! ## Pruning the pool -/

/-- The prune on every state: when `GetAllUnspentTxOuts` returns, `UpdateTransactionPool`
replaces the pool by exactly those entries, in their order, whose `Id` is not the `TxOutId` of
an entry of the ledger, and leaves the chain as it is; every entry it drops has its `Id` in the
ledger, and a second run changes nothing. When `GetAllUnspentTxOuts` stops with a run-time
error, so does `UpdateTransactionPool`, and nothing is replaced. -/
theorem UpdateTransactionPool_filters (s : State) :
    (∀ unspentTxOuts, GetAllUnspentTxOuts s.BlockChain = some unspentTxOuts →
      ∃ pruned : State, UpdateTransactionPool s = some pruned ∧
        pruned.BlockChain = s.BlockChain ∧
        pruned.TransactionPool
          = s.TransactionPool.filter
              (fun tx => decide (∀ e ∈ unspentTxOuts, e.TxOutId ≠ tx.Id)) ∧
        (∀ tx ∈ s.TransactionPool, tx ∉ pruned.TransactionPool →
          ∃ e ∈ unspentTxOuts, e.TxOutId = tx.Id) ∧
        UpdateTransactionPool pruned = some pruned) ∧
    (GetAllUnspentTxOuts s.BlockChain = none → UpdateTransactionPool s = none) := by
  constructor
  · intro u hu
    have hfilter : (s.TransactionPool.filter fun tx => !HasTxIn tx u)
        = s.TransactionPool.filter (fun tx => decide (∀ e ∈ u, e.TxOutId ≠ tx.Id)) := by
      apply List.filter_congr
      intro tx _
      rw [Bool.eq_iff_iff, HasTxIn_eq_false_iff]
      simp
    refine ⟨{ s with TransactionPool := s.TransactionPool.filter fun tx => !HasTxIn tx u },
      UpdateTransactionPool_eq s u hu, rfl, hfilter, ?_, ?_⟩
    · intro tx hmem hnot
      by_contra hnone
      apply hnot
      show tx ∈ s.TransactionPool.filter fun tx => !HasTxIn tx u
      rw [List.mem_filter]
      refine ⟨hmem, (HasTxIn_eq_false_iff tx u).mpr ?_⟩
      intro e he hid
      exact hnone ⟨e, he, hid⟩
    · have hu' : GetAllUnspentTxOuts
          ({ s with TransactionPool := s.TransactionPool.filter fun tx => !HasTxIn tx u }
            : State).BlockChain = some u := hu
      rw [UpdateTransactionPool_eq _ u hu']
      simp only [List.filter_filter, Bool.and_self]
  · intro hnone
    unfold UpdateTransactionPool
    rw [hnone]

/-- The prune on `paidChain`: the confirmed payment leaves the pool, the other entry stays. -/
theorem UpdateTransactionPool_filters_witness :
    GetAllUnspentTxOuts confirmedInPool.BlockChain = some paidLedger ∧
      ∃ pruned : State, UpdateTransactionPool confirmedInPool = some pruned ∧
        pruned.BlockChain = confirmedInPool.BlockChain ∧
        pruned.TransactionPool
          = confirmedInPool.TransactionPool.filter
              (fun tx => decide (∀ e ∈ paidLedger, e.TxOutId ≠ tx.Id)) ∧
        (∀ tx ∈ confirmedInPool.TransactionPool, tx ∉ pruned.TransactionPool →
          ∃ e ∈ paidLedger, e.TxOutId = tx.Id) ∧
        UpdateTransactionPool pruned = some pruned :=
  ⟨paidChain_ledger, (UpdateTransactionPool_filters confirmedInPool).1 paidLedger paidChain_ledger⟩

/-- The pool after that prune holds the unconfirmed payment only. -/
theorem UpdateTransactionPool_example :
    (UpdateTransactionPool confirmedInPool).map (fun s => s.TransactionPool)
      = some [conflictingPayment] := by
  decide!

theorem noInputChain_ledger : GetAllUnspentTxOuts noInputChain = none := by
  decide!

/-- C22: the block `noInputBlock`, whose second transaction has one output and no input, passes
`isValidBlock` and `ProcessTransactions` on the start-up state and is appended by
`AddBlockToChain`; the prune that follows stops with a run-time error, and on the chain that
now holds the block `GetAllUnspentTxOuts` stops on `transaction.TxIns[0]`, so that
`UpdateTransactionPool` stops with it for every pool and replaces nothing. -/
theorem UpdateTransactionPool_run_time_error :
    isValidBlock 1700000001 noInputBlock GenesisBlock = some true ∧
      (GetAllUnspentTxOuts initialState.BlockChain).map
          (fun unspent =>
            ProcessTransactions ecdsaVerifyASN1 noInputBlock.Data unspent noInputBlock.Index)
        = some (some true) ∧
      AddBlockToChain ecdsaVerifyASN1 1700000001 initialState noInputBlock
        = (none, { BlockChain := noInputChain, TransactionPool := [] }) ∧
      GetAllUnspentTxOuts noInputChain = none ∧
      ∀ pool : List Transaction,
        UpdateTransactionPool { BlockChain := noInputChain, TransactionPool := pool } = none := by
  refine ⟨by decide!, by decide!, by decide!, noInputChain_ledger, ?_⟩
  intro pool
  simp only [UpdateTransactionPool, noInputChain_ledger]

/-! ## The address-scoped ledger -/

theorem findIdx?_take_drop {α : Type} (p : α → Bool) (l : List α) :
    ∀ start : Nat,
      (∀ i, l.findIdx? p start = some i →
        start ≤ i ∧ l.take (i - start) ++ l.drop (i - start + 1) = l.eraseP p) ∧
      (l.findIdx? p start = none → l.eraseP p = l) := by
  induction l with
  | nil =>
    intro start
    simp
  | cons a rest ih =>
    intro start
    rw [List.findIdx?_cons, List.eraseP_cons]
    by_cases hp : p a = true
    · simp [hp]
    · have hpf : p a = false := by simpa using hp
      simp only [hp, if_false, hpf, cond_false]
      obtain ⟨h1, h2⟩ := ih (start + 1)
      constructor
      · intro i hi
        obtain ⟨hle, heq⟩ := h1 i hi
        refine ⟨by omega, ?_⟩
        have hsub : i - start = (i - (start + 1)) + 1 := by omega
        rw [hsub, List.take_succ_cons, List.drop_succ_cons, List.cons_append, heq]
      · intro hnone
        rw [h2 hnone]

/-- The removal step of `GetAllUnspentTxOuts`: the first entry with the given `TxOutId` and
`Address` is dropped, if there is one. -/
theorem remove_HasTxOutIdWithAddress (txOutID address : String) (l : List UnspentTxOut) :
    (if HasTxOutIdWithAddress txOutID address l ≠ -1
      then RemoveElementFromSlice l (HasTxOutIdWithAddress txOutID address l) else l)
      = l.eraseP fun txOut => decide (txOut.TxOutId = txOutID ∧ txOut.Address = address) := by
  obtain ⟨h1, h2⟩ := findIdx?_take_drop
    (fun txOut : UnspentTxOut => decide (txOut.TxOutId = txOutID ∧ txOut.Address = address)) l 0
  rcases hf : l.findIdx?
      (fun txOut => decide (txOut.TxOutId = txOutID ∧ txOut.Address = address)) with _ | i
  · have hidx : HasTxOutIdWithAddress txOutID address l = -1 := by
      simp only [HasTxOutIdWithAddress, hf]
    rw [hidx, if_neg (by simp)]
    exact (h2 hf).symm
  · have hidx : HasTxOutIdWithAddress txOutID address l = (i : Int) := by
      simp only [HasTxOutIdWithAddress, hf]
    have hne : ((i : Nat) : Int) ≠ -1 := by omega
    rw [hidx, if_pos hne]
    have := (h1 i hf).2
    simpa [RemoveElementFromSlice] using this

/-- The removal step of `GetUnspentTxOutsOfAddress`: the first entry with the given `TxOutId`
is dropped, if there is one. -/
theorem remove_HasTxOutId (txOutID : String) (l : List UnspentTxOut) :
    (if HasTxOutId txOutID l ≠ -1 then RemoveElementFromSlice l (HasTxOutId txOutID l) else l)
      = l.eraseP fun txOut => decide (txOut.TxOutId = txOutID) := by
  obtain ⟨h1, h2⟩ := findIdx?_take_drop
    (fun txOut : UnspentTxOut => decide (txOut.TxOutId = txOutID)) l 0
  rcases hf : l.findIdx? (fun txOut => decide (txOut.TxOutId = txOutID)) with _ | i
  · have hidx : HasTxOutId txOutID l = -1 := by
      simp only [HasTxOutId, hf]
    rw [hidx, if_neg (by simp)]
    exact (h2 hf).symm
  · have hidx : HasTxOutId txOutID l = (i : Int) := by
      simp only [HasTxOutId, hf]
    have hne : ((i : Nat) : Int) ≠ -1 := by omega
    rw [hidx, if_pos hne]
    have := (h1 i hf).2
    simpa [RemoveElementFromSlice] using this

/-- Dropping the first entry of a given id and address commutes with the view of that
address. -/
theorem filter_eraseP_same_address (txOutID address : String) (l : List UnspentTxOut) :
    (l.eraseP fun e => decide (e.TxOutId = txOutID ∧ e.Address = address)).filter
        (fun e => decide (e.Address = address))
      = (l.filter fun e => decide (e.Address = address)).eraseP
          fun e => decide (e.TxOutId = txOutID) := by
  induction l with
  | nil => simp
  | cons e rest ih =>
    rw [List.eraseP_cons]
    by_cases ha : e.Address = address
    · by_cases hid : e.TxOutId = txOutID
      · simp [ha, hid, List.filter_cons, List.eraseP_cons]
      · simp only [ha, hid, false_and, decide_False, cond_false, List.filter_cons, decide_True,
          if_true, List.eraseP_cons, ih]
    · simp only [ha, and_false, decide_False, cond_false, List.filter_cons, if_false, ih,
        Bool.false_eq_true]

/-- Dropping an entry of another address does not change the view of an address. -/
theorem filter_eraseP_other_address (txOutID address other : String) (hne : other ≠ address)
    (l : List UnspentTxOut) :
    (l.eraseP fun e => decide (e.TxOutId = txOutID ∧ e.Address = other)).filter
        (fun e => decide (e.Address = address))
      = l.filter fun e => decide (e.Address = address) := by
  induction l with
  | nil => simp
  | cons e rest ih =>
    rw [List.eraseP_cons]
    by_cases hp : e.TxOutId = txOutID ∧ e.Address = other
    · have ha : e.Address ≠ address := by rw [hp.2]; exact hne
      simp [hp, ha, hne, List.filter_cons]
    · simp only [hp, decide_False, cond_false, List.filter_cons, ih]

/-- One output: the address view of the global step is the address-scoped step on the address
view. -/
theorem unspentStep_filter (address : String) (transaction : Transaction) (txIn : TxIn)
    (hhead : transaction.TxIns.head? = some txIn) (acc : List UnspentTxOut) (txOut : TxOut) :
    ∃ next, unspentStep transaction acc txOut = some next ∧
      unspentOfAddressStep address transaction
          (acc.filter fun e => decide (e.Address = address)) txOut
        = some (next.filter fun e => decide (e.Address = address)) := by
  unfold unspentStep unspentOfAddressStep
  simp only [hhead]
  refine ⟨_, rfl, ?_⟩
  rw [remove_HasTxOutIdWithAddress, remove_HasTxOutId]
  by_cases ha : txOut.Address = address
  · simp only [ha, if_true, List.filter_append, filter_eraseP_same_address, List.filter_cons,
      decide_True, List.filter_nil]
  · simp only [ha, if_false, List.filter_append, List.filter_cons, decide_False,
      List.filter_nil, List.append_nil, Bool.false_eq_true,
      filter_eraseP_other_address _ _ _ ha]

theorem unspentStep_fold_filter (address : String) (transaction : Transaction) (txIn : TxIn)
    (hhead : transaction.TxIns.head? = some txIn) (txOuts : List TxOut) :
    ∀ acc : List UnspentTxOut,
      ∃ next, txOuts.foldlM (unspentStep transaction) acc = some next ∧
        txOuts.foldlM (unspentOfAddressStep address transaction)
            (acc.filter fun e => decide (e.Address = address))
          = some (next.filter fun e => decide (e.Address = address)) := by
  induction txOuts with
  | nil =>
    intro acc
    exact ⟨acc, rfl, rfl⟩
  | cons txOut rest ih =>
    intro acc
    obtain ⟨mid, h1, h2⟩ := unspentStep_filter address transaction txIn hhead acc txOut
    obtain ⟨next, h3, h4⟩ := ih mid
    refine ⟨next, ?_, ?_⟩
    · simp [List.foldlM_cons, h1, h3]
    · simp [List.foldlM_cons, h2, h4]

theorem transactions_fold_filter (address : String) (transactions : List Transaction)
    (hins : ∀ tx ∈ transactions, tx.TxIns ≠ []) :
    ∀ acc : List UnspentTxOut,
      ∃ next,
        transactions.foldlM
            (fun acc1 transaction => transaction.TxOuts.foldlM (unspentStep transaction) acc1)
            acc = some next ∧
        transactions.foldlM
            (fun acc1 transaction =>
              transaction.TxOuts.foldlM (unspentOfAddressStep address transaction) acc1)
            (acc.filter fun e => decide (e.Address = address))
          = some (next.filter fun e => decide (e.Address = address)) := by
  induction transactions with
  | nil =>
    intro acc
    exact ⟨acc, rfl, rfl⟩
  | cons transaction rest ih =>
    intro acc
    have hne : transaction.TxIns ≠ [] := hins transaction (List.mem_cons_self _ _)
    obtain ⟨txIn, hhead⟩ : ∃ txIn, transaction.TxIns.head? = some txIn := by
      cases hl : transaction.TxIns with
      | nil => exact absurd hl hne
      | cons txIn _ => exact ⟨txIn, rfl⟩
    obtain ⟨mid, h1, h2⟩ :=
      unspentStep_fold_filter address transaction txIn hhead transaction.TxOuts acc
    obtain ⟨next, h3, h4⟩ :=
      ih (fun tx htx => hins tx (List.mem_cons_of_mem _ htx)) mid
    refine ⟨next, ?_, ?_⟩
    · simp [List.foldlM_cons, h1, h3]
    · simp [List.foldlM_cons, h2, h4]

theorem blocks_fold_filter (address : String) (blockChain : List Block)
    (hins : ∀ block ∈ blockChain, ∀ tx ∈ block.Data, tx.TxIns ≠ []) :
    ∀ acc : List UnspentTxOut,
      ∃ next,
        blockChain.foldlM
            (fun acc0 block =>
              block.Data.foldlM
                (fun acc1 transaction =>
                  transaction.TxOuts.foldlM (unspentStep transaction) acc1) acc0)
            acc = some next ∧
        blockChain.foldlM
            (fun acc0 block =>
              block.Data.foldlM
                (fun acc1 transaction =>
                  transaction.TxOuts.foldlM (unspentOfAddressStep address transaction) acc1)
                acc0)
            (acc.filter fun e => decide (e.Address = address))
          = some (next.filter fun e => decide (e.Address = address)) := by
  induction blockChain with
  | nil =>
    intro acc
    exact ⟨acc, rfl, rfl⟩
  | cons block rest ih =>
    intro acc
    obtain ⟨mid, h1, h2⟩ :=
      transactions_fold_filter address block.Data (hins block (List.mem_cons_self _ _)) acc
    obtain ⟨next, h3, h4⟩ :=
      ih (fun b hb => hins b (List.mem_cons_of_mem _ hb)) mid
    refine ⟨next, ?_, ?_⟩
    · simp [List.foldlM_cons, h1, h3]
    · simp [List.foldlM_cons, h2, h4]

theorem GetBalanceOfUnspentTxOuts_eq (txOuts : List UnspentTxOut) :
    GetBalanceOfUnspentTxOuts txOuts = wrap64 (txOuts.map fun e => e.Amount).sum := by
  unfold GetBalanceOfUnspentTxOuts
  have h := foldl_add64_eq (txOuts.map fun e => e.Amount) 0 (by decide)
  rw [List.foldl_map] at h
  rw [h, zero_add]

/-- C25: on a chain in which every transaction has at least one input, both ledger
computations return, `GetUnspentTxOutsOfAddress` of an address is the sublist of
`GetAllUnspentTxOuts` made of the entries with that address, in the same order, and the
balance computed from the address-scoped view is the (int64) sum of the amounts of those
entries of the global ledger. -/
theorem GetUnspentTxOutsOfAddress_eq_filter (blockChain : List Block) (address : String)
    (hins : ∀ block ∈ blockChain, ∀ tx ∈ block.Data, tx.TxIns ≠ []) :
    ∃ unspentTxOuts,
      GetAllUnspentTxOuts blockChain = some unspentTxOuts ∧
      GetUnspentTxOutsOfAddress blockChain address
        = some (unspentTxOuts.filter fun e => decide (e.Address = address)) ∧
      (GetUnspentTxOutsOfAddress blockChain address).map GetBalanceOfUnspentTxOuts
        = some (wrap64
            ((unspentTxOuts.filter fun e => decide (e.Address = address)).map
              fun e => e.Amount).sum) := by
  obtain ⟨all, h1, h2⟩ := blocks_fold_filter address blockChain hins []
  have h3 : GetUnspentTxOutsOfAddress blockChain address
      = some (all.filter fun e => decide (e.Address = address)) := h2
  refine ⟨all, h1, h3, ?_⟩
  rw [h3, Option.map_some', GetBalanceOfUnspentTxOuts_eq]

theorem paidChain_inputs :
    ∀ block ∈ paidChain, ∀ tx ∈ block.Data, tx.TxIns ≠ [] := by decide!

theorem GetUnspentTxOutsOfAddress_eq_filter_witness :
    (∀ block ∈ paidChain, ∀ tx ∈ block.Data, tx.TxIns ≠ []) ∧
      ∃ unspentTxOuts,
        GetAllUnspentTxOuts paidChain = some unspentTxOuts ∧
        GetUnspentTxOutsOfAddress paidChain bobAddress
          = some (unspentTxOuts.filter fun e => decide (e.Address = bobAddress)) ∧
        (GetUnspentTxOutsOfAddress paidChain bobAddress).map GetBalanceOfUnspentTxOuts
          = some (wrap64
              ((unspentTxOuts.filter fun e => decide (e.Address = bobAddress)).map
                fun e => e.Amount).sum) :=
  ⟨paidChain_inputs, GetUnspentTxOutsOfAddress_eq_filter paidChain bobAddress paidChain_inputs⟩

/-! ## Modular exponentiation and the field prime of P-256 -/

theorem powModAux_eq (m : Nat) :
    ∀ fuel b e acc : Nat, e ≤ fuel → acc % m = acc →
      powModAux m fuel b e acc = acc * b ^ e % m := by
  intro fuel
  induction fuel with
  | zero =>
    intro b e acc he hacc
    have : e = 0 := by omega
    subst this
    simp [powModAux, hacc]
  | succ fuel ih =>
    intro b e acc he hacc
    unfold powModAux
    by_cases h0 : e = 0
    · subst h0
      simp [hacc]
    · rw [if_neg h0]
      have hsplit : b ^ e = (b * b) ^ (e / 2) * b ^ (e % 2) := by
        conv_lhs => rw [← Nat.div_add_mod e 2, pow_add, pow_mul, pow_two]
      have hbb : (b * b % m) ^ (e / 2) ≡ (b * b) ^ (e / 2) [MOD m] :=
        (Nat.mod_modEq _ _).pow _
      by_cases hodd : e % 2 = 1
      · rw [if_pos hodd, ih _ _ _ (by omega) (Nat.mod_mod _ _)]
        have h1 : acc * b % m * (b * b % m) ^ (e / 2) ≡ acc * b * (b * b) ^ (e / 2) [MOD m] :=
          (Nat.mod_modEq _ _).mul hbb
        rw [hsplit, hodd, pow_one]
        have h2 : acc * b * (b * b) ^ (e / 2) = acc * ((b * b) ^ (e / 2) * b) := by ring
        rw [← h2]
        exact h1
      · rw [if_neg hodd, ih _ _ _ (by omega) hacc]
        have heven : e % 2 = 0 := by omega
        rw [hsplit, heven, pow_zero, mul_one]
        exact Nat.ModEq.mul_left _ hbb

/-- The function `powMod` is modular exponentiation. -/
theorem powMod_eq (b e m : Nat) : powMod b e m = b ^ e % m := by
  unfold powMod
  rw [powModAux_eq m e (b % m) e (1 % m) le_rfl (Nat.mod_mod _ _)]
  have h : 1 % m * (b % m) ^ e ≡ 1 * b ^ e [MOD m] :=
    (Nat.mod_modEq _ _).mul ((Nat.mod_modEq _ _).pow _)
  rw [one_mul] at h
  exact h

theorem natCast_pow_eq_one_iff (p : Nat) (hp : 1 < p) (a k : Nat) :
    (a : ZMod p) ^ k = 1 ↔ powMod a k p = 1 := by
  rw [powMod_eq, ← Nat.cast_pow, ← Nat.cast_one, ZMod.natCast_eq_natCast_iff',
    Nat.mod_eq_of_lt hp]

/-- Lucas test with the powers computed by `powMod`: `qs` lists the prime factors of
`p - 1`. -/
theorem prime_of_powMod (p a : Nat) (qs : List Nat) (hp : 1 < p) (hprod : qs.prod = p - 1)
    (hqs : ∀ q ∈ qs, q.Prime) (hone : powMod a (p - 1) p = 1)
    (hne : ∀ q ∈ qs, powMod a ((p - 1) / q) p ≠ 1) : p.Prime := by
  have hcast : ∀ k : Nat, (a : ZMod p) ^ k = 1 ↔ powMod a k p = 1 :=
    fun k => natCast_pow_eq_one_iff p hp a k
  refine lucas_primality p (a : ZMod p) ((hcast _).mpr hone) ?_
  intro q hq hdvd
  rw [← hprod] at hdvd
  obtain ⟨r, hr, hqr⟩ := (Prime.dvd_prod_iff hq.prime).mp hdvd
  have hqeq : q = r := (Nat.prime_dvd_prime_iff_eq hq (hqs r hr)).mp hqr
  subst hqeq
  intro h
  exact hne q hr ((hcast _).mp h)

theorem prime_204061199 : Nat.Prime 204061199 :=
  prime_of_powMod 204061199 11 [2, 11, 23, 107, 3769] (by decide!) (by decide!)
    (by intro q hq; simp only [List.mem_cons, List.mem_singleton, List.not_mem_nil, or_false] at hq
        rcases hq with rfl | rfl | rfl | rfl | rfl <;> norm_num)
    (by decide!) (by decide!)

theorem prime_34282281433 : Nat.Prime 34282281433 :=
  prime_of_powMod 34282281433 17
    [2, 2, 2, 3, 7, 204061199]
    (by decide!) (by decide!)
    (by intro q hq
        simp only [List.mem_cons, List.mem_singleton, List.not_mem_nil, or_false] at hq
        rcases hq with rfl | rfl | rfl | rfl | rfl | rfl
        all_goals first | exact prime_204061199 | norm_num)
    (by decide!) (by decide!)

theorem prime_66417393611 : Nat.Prime 66417393611 :=
  prime_of_powMod 66417393611 6
    [2, 5, 53, 173, 197, 3677]
    (by decide!) (by decide!)
    (by intro q hq
        simp only [List.mem_cons, List.mem_singleton, List.not_mem_nil, or_false] at hq
        rcases hq with rfl | rfl | rfl | rfl | rfl | rfl
        all_goals first | norm_num)
    (by decide!) (by decide!)

theorem prime_11290956913871 : Nat.Prime 11290956913871 :=
  prime_of_powMod 11290956913871 13
    [2, 5, 17, 66417393611]
    (by decide!) (by decide!)
    (by intro q hq
        simp only [List.mem_cons, List.mem_singleton, List.not_mem_nil, or_false] at hq
        rcases hq with rfl | rfl | rfl | rfl
        all_goals first | exact prime_66417393611 | norm_num)
    (by decide!) (by decide!)

theorem prime_46076956964474543 : Nat.Prime 46076956964474543 :=
  prime_of_powMod 46076956964474543 5
    [2, 23, 18169, 78283, 704251]
    (by decide!) (by decide!)
    (by intro q hq
        simp only [List.mem_cons, List.mem_singleton, List.not_mem_nil, or_false] at hq
        rcases hq with rfl | rfl | rfl | rfl | rfl
        all_goals first | norm_num)
    (by decide!) (by decide!)

theorem prime_774023187263532362759620327192479577272145303 :
    Nat.Prime 774023187263532362759620327192479577272145303 :=
  prime_of_powMod 774023187263532362759620327192479577272145303 3
    [2, 3, 3, 2411, 34282281433, 11290956913871, 46076956964474543]
    (by decide!) (by decide!)
    (by intro q hq
        simp only [List.mem_cons, List.mem_singleton, List.not_mem_nil, or_false] at hq
        rcases hq with rfl | rfl | rfl | rfl | rfl | rfl | rfl
        all_goals first
          | exact prime_34282281433 | exact prime_11290956913871
          | exact prime_46076956964474543 | norm_num)
    (by decide!) (by decide!)

theorem prime_835945042244614951780389953367877943453916927241 :
    Nat.Prime 835945042244614951780389953367877943453916927241 :=
  prime_of_powMod 835945042244614951780389953367877943453916927241 11
    [2, 2, 2, 3, 3, 3, 5, 774023187263532362759620327192479577272145303]
    (by decide!) (by decide!)
    (by intro q hq
        simp only [List.mem_cons, List.mem_singleton, List.not_mem_nil, or_false] at hq
        rcases hq with rfl | rfl | rfl | rfl | rfl | rfl | rfl | rfl
        all_goals first | exact prime_774023187263532362759620327192479577272145303 | norm_num)
    (by decide!) (by decide!)

/-- The field prime of P-256 is prime (Lucas test on the factorisation of `p - 1`). -/
theorem p256P_prime : Nat.Prime p256P :=
  prime_of_powMod p256P 6
    [2, 3, 5, 5, 17, 257, 641, 1531, 65537, 490463, 6700417,
      835945042244614951780389953367877943453916927241]
    (by decide!) (by decide!)
    (by intro q hq
        simp only [List.mem_cons, List.mem_singleton, List.not_mem_nil, or_false] at hq
        rcases hq with rfl | rfl | rfl | rfl | rfl | rfl | rfl | rfl | rfl | rfl | rfl | rfl
        all_goals first | exact prime_835945042244614951780389953367877943453916927241 | norm_num)
    (by decide!) (by decide!)

theorem p256P_mod_four : p256P % 4 = 3 := by decide!

theorem p256P_lt : p256P < 256 ^ 32 := by decide!

/-! ## Square roots modulo a prime `p` with `p % 4 = 3` -/

/-- A value returned by `ModSqrt` is a reduced square root of its argument. -/
theorem ModSqrt_some (p : Nat) (hp : p.Prime) (h3 : p % 4 = 3) (n r : Nat)
    (h : ModSqrt n p = some r) : r < p ∧ (r : ZMod p) ^ 2 = (n : ZMod p) := by
  have hpos : 0 < p := hp.pos
  unfold ModSqrt at h
  split_ifs at h with h0 h1
  · have hr : r = 0 := by simpa using h.symm
    subst hr
    refine ⟨hpos, ?_⟩
    have hn : (n : ZMod p) = 0 :=
      (ZMod.natCast_zmod_eq_zero_iff_dvd n p).mpr (Nat.dvd_of_mod_eq_zero h0)
    rw [hn]
    simp
  · have hr : r = powMod n ((p + 1) / 4) p := by simpa using h.symm
    subst hr
    refine ⟨by rw [powMod_eq]; exact Nat.mod_lt _ hpos, ?_⟩
    have he : (n : ZMod p) ^ ((p - 1) / 2) = 1 :=
      (natCast_pow_eq_one_iff p hp.one_lt n _).mpr h1
    have hexp : (p + 1) / 4 * 2 = (p - 1) / 2 + 1 := by omega
    rw [powMod_eq, ZMod.natCast_mod, Nat.cast_pow, ← pow_mul, hexp, pow_succ, he, one_mul]

/-- The function `ModSqrt` returns no root exactly when its argument is not a square. -/
theorem ModSqrt_eq_none_iff (p : Nat) (hp : p.Prime) (h3 : p % 4 = 3) (n : Nat) :
    ModSqrt n p = none ↔ ¬ ∃ r : ZMod p, r ^ 2 = (n : ZMod p) := by
  haveI : Fact p.Prime := ⟨hp⟩
  constructor
  · rintro h ⟨r, hr⟩
    unfold ModSqrt at h
    split_ifs at h with h0 h1
    have hn : (n : ZMod p) ≠ 0 := by
      intro hz
      exact h0 (Nat.mod_eq_zero_of_dvd ((ZMod.natCast_zmod_eq_zero_iff_dvd n p).mp hz))
    have hr0 : r ≠ 0 := by
      intro hz
      rw [hz] at hr
      exact hn (by rw [← hr]; simp)
    have hexp : 2 * ((p - 1) / 2) = p - 1 := by omega
    have hone : (n : ZMod p) ^ ((p - 1) / 2) = 1 := by
      rw [← hr, ← pow_mul, hexp]
      exact ZMod.pow_card_sub_one_eq_one hr0
    exact h1 ((natCast_pow_eq_one_iff p hp.one_lt n _).mp hone)
  · intro h
    rcases hm : ModSqrt n p with _ | r
    · rfl
    · exact absurd ⟨(r : ZMod p), (ModSqrt_some p hp h3 n r hm).2⟩ h

/-- Two reduced numbers with the same square modulo a prime are equal or opposite. -/
theorem eq_or_eq_sub_of_sq_eq (p : Nat) (hp : p.Prime) (r y : Nat) (hr : r < p) (hy : y < p)
    (h : (r : ZMod p) ^ 2 = (y : ZMod p) ^ 2) : r = y ∨ (0 < y ∧ r = p - y) := by
  haveI : Fact p.Prime := ⟨hp⟩
  rcases sq_eq_sq_iff_eq_or_eq_neg.mp h with heq | hneg
  · left
    have := (ZMod.natCast_eq_natCast_iff' r y p).mp heq
    rwa [Nat.mod_eq_of_lt hr, Nat.mod_eq_of_lt hy] at this
  · have hsum : ((r + y : Nat) : ZMod p) = 0 := by
      rw [Nat.cast_add, hneg]
      simp
    obtain ⟨k, hk⟩ := (ZMod.natCast_zmod_eq_zero_iff_dvd (r + y) p).mp hsum
    rcases k with _ | _ | k
    · left
      simp at hk
      omega
    · right
      simp at hk
      omega
    · exfalso
      have : p * (k + 1 + 1) = p * k + p + p := by ring
      omega

/-! ## Compressed addresses -/

theorem fromHexChar_getD : ∀ d, d < 16 → fromHexChar (hexDigits.getD d '0') = some d := by
  decide

theorem hexDecodeList_encode (bs : List Nat) (hb : ∀ b ∈ bs, b < 256) :
    hexDecodeList
        (bs.flatMap fun b => [hexDigits.getD (b / 16) '0', hexDigits.getD (b % 16) '0'])
      = (bs, true) := by
  induction bs with
  | nil => rfl
  | cons b rest ih =>
    have hlt : b < 256 := hb b (List.mem_cons_self _ _)
    have ihr := ih fun c hc => hb c (List.mem_cons_of_mem _ hc)
    rw [List.flatMap_cons, List.cons_append, List.cons_append, List.nil_append]
    unfold hexDecodeList
    rw [fromHexChar_getD (b / 16) (by omega), fromHexChar_getD (b % 16) (by omega)]
    simp only [ihr]
    have : b / 16 * 16 + b % 16 = b := by omega
    rw [this]

/-- Decoding the lower-case hex encoding of a byte string gives the bytes back. -/
theorem DecodeString_hexEncode (bs : List Nat) (hb : ∀ b ∈ bs, b < 256) :
    DecodeString (hexEncode bs) = (bs, true) :=
  hexDecodeList_encode bs hb

theorem length_beBytes (n x : Nat) : (beBytes n x).length = n := by
  induction n with
  | zero => rfl
  | succ n ih => simp [beBytes, ih]

theorem beBytes_lt (n x : Nat) : ∀ b ∈ beBytes n x, b < 256 := by
  induction n with
  | zero => simp [beBytes]
  | succ n ih =>
    intro b hb
    simp only [beBytes, List.mem_cons] at hb
    rcases hb with rfl | hb
    · exact Nat.mod_lt _ (by norm_num)
    · exact ih b hb

/-- Reading back the `n` big-endian bytes of `x` gives `x` modulo `256 ^ n`. -/
theorem SetBytes_beBytes (n x : Nat) : SetBytes (beBytes n x) = x % 256 ^ n := by
  induction n with
  | zero => simp [beBytes, SetBytes, Nat.mod_one]
  | succ n ih =>
    have hpow : 2 ^ (8 * n) = 256 ^ n := by rw [pow_mul]; norm_num
    simp only [beBytes]
    rw [SetBytes_cons, length_beBytes, ih, Nat.shiftRight_eq_div_pow, hpow, Nat.mod_pow_succ]
    ring

/-- The value handed to `ModSqrt` by `DeriveYFromCompressed` is the reduced residue of
`x³ - 3x + b`. -/
theorem ySquared_toNat (x : Nat) :
    ((((x ^ 3 % p256P : Nat) : Int) - ((x * 3 % p256P : Nat) : Int) + (p256B : Int))
        % (p256P : Int)).toNat < p256P ∧
      (((((x ^ 3 % p256P : Nat) : Int) - ((x * 3 % p256P : Nat) : Int) + (p256B : Int))
          % (p256P : Int)).toNat : ZMod p256P)
        = (x : ZMod p256P) ^ 3 - 3 * (x : ZMod p256P) + (p256B : ZMod p256P) := by
  have hpos : (0 : Int) < (p256P : Int) := by exact_mod_cast p256P_prime.pos
  generalize hz : (((x ^ 3 % p256P : Nat) : Int) - ((x * 3 % p256P : Nat) : Int)
    + (p256B : Int)) = z
  have h0 : 0 ≤ z % (p256P : Int) := Int.emod_nonneg _ (ne_of_gt hpos)
  have h1 : z % (p256P : Int) < (p256P : Int) := Int.emod_lt_of_pos _ hpos
  have hcast : (((z % (p256P : Int)).toNat : Nat) : Int) = z % (p256P : Int) :=
    Int.toNat_of_nonneg h0
  refine ⟨by omega, ?_⟩
  have h2 : (((z % (p256P : Int)).toNat : Nat) : ZMod p256P)
      = (((z % (p256P : Int)).toNat : Int) : ZMod p256P) := by
    rw [Int.cast_natCast]
  rw [h2, hcast, ZMod.intCast_mod, ← hz]
  push_cast
  ring

/-- Square roots in `ZMod p256P` and integer square roots modulo the prime are the same
thing. -/
theorem exists_sqrt_iff (x n : Nat)
    (hn : (n : ZMod p256P) = (x : ZMod p256P) ^ 3 - 3 * (x : ZMod p256P) + (p256B : ZMod p256P)) :
    (∃ r : ZMod p256P, r ^ 2 = (n : ZMod p256P)) ↔
      ∃ r : Int, r ^ 2 ≡ (x : Int) ^ 3 - 3 * (x : Int) + (p256B : Int) [ZMOD (p256P : Int)] := by
  haveI : Fact p256P.Prime := ⟨p256P_prime⟩
  constructor
  · rintro ⟨r, hr⟩
    refine ⟨(r.val : Int), ?_⟩
    rw [← ZMod.intCast_eq_intCast_iff]
    push_cast
    rw [ZMod.natCast_zmod_val, hr, hn]
  · rintro ⟨r, hr⟩
    refine ⟨(r : ZMod p256P), ?_⟩
    rw [← ZMod.intCast_eq_intCast_iff] at hr
    push_cast at hr
    rw [hn, hr]

/-- C23: for every point `(x, y)` of P-256 with `x, y < p`, `DeriveYFromCompressed` applied to
the hex encoding of the tag byte (`0x02` for an even `y`, `0x03` for an odd one) followed by
`x` on 32 big-endian bytes returns `(x, y)` with no error. -/
theorem DeriveYFromCompressed_compressPoint (x y : Nat) (hx : x < p256P) (hy : y < p256P)
    (hcurve : (y : Int) ^ 2 ≡ (x : Int) ^ 3 - 3 * (x : Int) + (p256B : Int)
      [ZMOD (p256P : Int)]) :
    DeriveYFromCompressed (compressPoint x y) = Except.ok (x, y) := by
  have hbytes : ∀ b ∈ (if y % 2 = 0 then 2 else 3) :: beBytes 32 x, b < 256 := by
    intro b hb
    rcases List.mem_cons.mp hb with rfl | hb
    · split_ifs <;> norm_num
    · exact beBytes_lt 32 x b hb
  have hdec := DecodeString_hexEncode _ hbytes
  have hxval : SetBytes (beBytes 32 x) = x := by
    rw [SetBytes_beBytes]
    exact Nat.mod_eq_of_lt (lt_trans hx p256P_lt)
  obtain ⟨hlt, hcast⟩ := ySquared_toNat x
  have hsq : (y : ZMod p256P) ^ 2
      = (x : ZMod p256P) ^ 3 - 3 * (x : ZMod p256P) + (p256B : ZMod p256P) := by
    have h := (ZMod.intCast_eq_intCast_iff _ _ p256P).mpr hcurve
    push_cast at h
    exact h
  have hodd : p256P % 2 = 1 := by
    have := p256P_mod_four
    omega
  have htag : (if y % 2 = 0 then 2 else 3) = 2 ∨ (if y % 2 = 0 then 2 else 3) = 3 := by
    split_ifs
    · exact Or.inl rfl
    · exact Or.inr rfl
  unfold DeriveYFromCompressed compressPoint
  simp only [hdec, Bool.not_true, Bool.false_eq_true, if_false, List.length_cons,
    length_beBytes, ne_eq, not_true_eq_false, List.headD_cons, List.tail_cons, hxval]
  generalize ((((x ^ 3 % p256P : Nat) : Int) - ((x * 3 % p256P : Nat) : Int) + (p256B : Int))
    % (p256P : Int)).toNat = n at hlt hcast ⊢
  have hexists : ∃ r : ZMod p256P, r ^ 2 = (n : ZMod p256P) := ⟨(y : ZMod p256P), by rw [hsq, hcast]⟩
  rcases hm : ModSqrt n p256P with _ | r
  · exact absurd hexists ((ModSqrt_eq_none_iff p256P p256P_prime p256P_mod_four n).mp hm)
  · obtain ⟨hr, hr2⟩ := ModSqrt_some p256P p256P_prime p256P_mod_four n r hm
    have hry : (r : ZMod p256P) ^ 2 = (y : ZMod p256P) ^ 2 := by rw [hr2, hsq, hcast]
    rcases eq_or_eq_sub_of_sq_eq p256P p256P_prime r y hr hy hry with heq | ⟨hpos, heq⟩
    · subst heq
      by_cases hpar : r % 2 = 0
      · simp [hpar]
      · have : r % 2 = 1 := by omega
        simp [this]
    · have hback : (p256P - r) % p256P = y := by
        rw [heq, Nat.mod_eq_of_lt (by omega)]
        omega
      by_cases hpar : y % 2 = 0
      · have : r % 2 = 1 := by omega
        simp [hpar, this, hback]
      · have : r % 2 = 0 := by omega
        simp [hpar, this, hback]

theorem DeriveYFromCompressed_compressPoint_witness :
    p256G.1 < p256P ∧ p256G.2 < p256P ∧
      ((p256G.2 : Int) ^ 2 ≡ (p256G.1 : Int) ^ 3 - 3 * (p256G.1 : Int) + (p256B : Int)
        [ZMOD (p256P : Int)]) ∧
      DeriveYFromCompressed (compressPoint p256G.1 p256G.2) = Except.ok (p256G.1, p256G.2) :=
  ⟨by decide!, by decide!, by decide!,
    DeriveYFromCompressed_compressPoint p256G.1 p256G.2 (by decide!) (by decide!)
      (by decide!)⟩

/-- Validity of a hex string: an even number of characters, all of them hex digits. -/
theorem hexDecodeList_ok_iff : ∀ l : List Char,
    (hexDecodeList l).2 = true ↔
      l.length % 2 = 0 ∧ ∀ c ∈ l, (fromHexChar c).isSome = true
  | [] => by simp [hexDecodeList]
  | [_] => by simp [hexDecodeList]
  | p :: q :: rest => by
    have ih := hexDecodeList_ok_iff rest
    unfold hexDecodeList
    rcases hp : fromHexChar p with _ | a
    · simp [hp]
    · rcases hq : fromHexChar q with _ | b
      · simp [hq]
      · simp only [ih, List.length_cons, List.mem_cons, forall_eq_or_imp, hp, hq,
          Option.isSome_some, true_and]
        constructor
        · rintro ⟨h1, h2⟩
          exact ⟨by omega, h2⟩
        · rintro ⟨h1, h2⟩
          exact ⟨by omega, h2⟩

/-- C24: `DeriveYFromCompressed` returns an error exactly when the address is not valid hex, or
decodes to a length other than 33 bytes, or its first byte is neither `0x02` nor `0x03`, or
`x³ - 3x + b` has no square root modulo `p`, where `x` is the big-endian value of the last 32
bytes; in every other case it returns a pair with no error. -/
theorem DeriveYFromCompressed_error_iff (compressedAddress : String) :
    ((∃ e, DeriveYFromCompressed compressedAddress = Except.error e) ↔
      ((DecodeString compressedAddress).2 = false ∨
        (DecodeString compressedAddress).1.length ≠ 33 ∨
        ((DecodeString compressedAddress).1.headD 0 ≠ 2 ∧
          (DecodeString compressedAddress).1.headD 0 ≠ 3) ∨
        ¬ ∃ r : Int,
          r ^ 2 ≡ (SetBytes (DecodeString compressedAddress).1.tail : Int) ^ 3
              - 3 * (SetBytes (DecodeString compressedAddress).1.tail : Int) + (p256B : Int)
            [ZMOD (p256P : Int)])) ∧
    ((∃ xy, DeriveYFromCompressed compressedAddress = Except.ok xy) ↔
      ¬ ((DecodeString compressedAddress).2 = false ∨
        (DecodeString compressedAddress).1.length ≠ 33 ∨
        ((DecodeString compressedAddress).1.headD 0 ≠ 2 ∧
          (DecodeString compressedAddress).1.headD 0 ≠ 3) ∨
        ¬ ∃ r : Int,
          r ^ 2 ≡ (SetBytes (DecodeString compressedAddress).1.tail : Int) ^ 3
              - 3 * (SetBytes (DecodeString compressedAddress).1.tail : Int) + (p256B : Int)
            [ZMOD (p256P : Int)])) := by
  have hdich : (∃ xy, DeriveYFromCompressed compressedAddress = Except.ok xy) ↔
      ¬ ∃ e, DeriveYFromCompressed compressedAddress = Except.error e := by
    rcases DeriveYFromCompressed compressedAddress with e | xy
    · simp
    · simp
  suffices h : (∃ e, DeriveYFromCompressed compressedAddress = Except.error e) ↔
      ((DecodeString compressedAddress).2 = false ∨
        (DecodeString compressedAddress).1.length ≠ 33 ∨
        ((DecodeString compressedAddress).1.headD 0 ≠ 2 ∧
          (DecodeString compressedAddress).1.headD 0 ≠ 3) ∨
        ¬ ∃ r : Int,
          r ^ 2 ≡ (SetBytes (DecodeString compressedAddress).1.tail : Int) ^ 3
              - 3 * (SetBytes (DecodeString compressedAddress).1.tail : Int) + (p256B : Int)
            [ZMOD (p256P : Int)]) from ⟨h, hdich.trans (not_congr h)⟩
  unfold DeriveYFromCompressed
  generalize DecodeString compressedAddress = decoded
  obtain ⟨bytes, ok⟩ := decoded
  simp only []
  generalize bytes.headD 0 = tag
  cases ok with
  | false => simp
  | true =>
    by_cases hlen : bytes.length ≠ 33
    · simp [hlen]
    · by_cases htag : tag ≠ 2 ∧ tag ≠ 3
      · have hlen33 : bytes.length = 33 := not_not.mp hlen
        simp [hlen33, htag]
      · obtain ⟨hlt, hcast⟩ := ySquared_toNat (SetBytes bytes.tail)
        have hiff := exists_sqrt_iff (SetBytes bytes.tail) _ hcast
        simp only [Bool.not_true, Bool.false_eq_true, if_false, hlen, htag, false_or]
        generalize ((((SetBytes bytes.tail ^ 3 % p256P : Nat) : Int)
          - ((SetBytes bytes.tail * 3 % p256P : Nat) : Int) + (p256B : Int))
          % (p256P : Int)).toNat = n at hlt hcast hiff ⊢
        rw [← hiff, ← ModSqrt_eq_none_iff p256P p256P_prime p256P_mod_four n]
        rcases hm : ModSqrt n p256P with _ | r
        · simp
        · by_cases hpar : r % 2 ≠ tag % 2
          · dsimp only
            rw [if_pos hpar]
            simp
          · dsimp only
            rw [if_neg hpar]
            simp

end XkmCoin
